import Mathlib

/-!
Verification of the Backend.AI agent's kernel lifecycle manager
(`src/ai/backend/agent/server.py`) against its specification.

The Python source is shallowly embedded: strings are `List Char`, Python
`dict`s are association lists, the port pool is a `Finset Nat`, `Decimal`
is `ℚ`, and the stateful RPC handlers are explicit state-passing functions
over an `AgentState`.  Fallible code returns `Except`.
-/

namespace BackendAgent

/-! ### Python string primitives (`str.split`, `str.rsplit`, `str.lstrip`,
`str.startswith`, `int(...)`) modelled on `List Char` -/

/-- Python `s.split(sep)` for a one-character separator (no maxsplit):
splits at every occurrence, keeping empty fields. -/
def splitOnChar (sep : Char) : List Char → List (List Char)
  | [] => [[]]
  | c :: rest =>
    if c = sep then [] :: splitOnChar sep rest
    else
      match splitOnChar sep rest with
      | [] => [[c]]
      | p :: ps => (c :: p) :: ps

/-- Inverse of `splitOnChar`: re-joins fields with the separator. -/
def joinWithChar (sep : Char) : List (List Char) → List Char
  | [] => []
  | [p] => p
  | p :: q :: ps => p ++ sep :: joinWithChar sep (q :: ps)

/-- Splits off the field before the first occurrence of `sep`, if any. -/
def breakAtChar (sep : Char) : List Char → Option (List Char × List Char)
  | [] => none
  | c :: rest =>
    if c = sep then some ([], rest)
    else
      match breakAtChar sep rest with
      | none => none
      | some (a, b) => some (c :: a, b)

/-- Python `s.split(sep, maxsplit)`: at most `n` splits from the left. -/
def splitLimit (sep : Char) : Nat → List Char → List (List Char)
  | 0, s => [s]
  | n + 1, s =>
    match breakAtChar sep s with
    | none => [s]
    | some (a, b) => a :: splitLimit sep n b

/-- Python `s.rsplit(sep, maxsplit)`: at most `n` splits from the right. -/
def pyRsplit (sep : Char) (maxsplit : Nat) (s : List Char) : List (List Char) :=
  ((splitLimit sep maxsplit s.reverse).map List.reverse).reverse

/-- Python `s.lstrip(c)` for a single strip character. -/
def lstripChar (c : Char) : List Char → List Char
  | [] => []
  | x :: rest => if x = c then lstripChar c rest else x :: rest

/-- Python `s.startswith(p)`. -/
def startsWith (p s : List Char) : Bool :=
  p.isPrefixOf s

/-- Characters stripped by Python `int(str)` before parsing
(ASCII whitespace). -/
def isPySpace (c : Char) : Bool :=
  c = ' ' || c = '\t' || c = '\n' || c = '\r' ||
  c = Char.ofNat 11 || c = Char.ofNat 12

/-- Strip leading and trailing whitespace. -/
def stripWs (s : List Char) : List Char :=
  ((s.dropWhile isPySpace).reverse.dropWhile isPySpace).reverse

/-- After the first digit, Python `int` accepts digits with single
underscores strictly between digits. -/
def pyDigitsRun : List Char → Bool
  | [] => true
  | '_' :: rest =>
    match rest with
    | [] => false
    | c :: rest2 => c.isDigit && pyDigitsRun rest2
  | c :: rest => c.isDigit && pyDigitsRun rest

/-- Digit-run grammar of Python `int`: a digit, then `pyDigitsRun`. -/
def pyIntDigits : List Char → Bool
  | [] => false
  | c :: rest => c.isDigit && pyDigitsRun rest

/-- Numeric value of a digit list (underscores already removed). -/
def digitsToNat (s : List Char) : Nat :=
  s.foldl (fun n c => 10 * n + (c.toNat - '0'.toNat)) 0

/-- Python `int(s)` on a string: optional surrounding whitespace, optional
sign, digits with single interior underscores; `none` models `ValueError`. -/
def pyInt? (s : List Char) : Option Int :=
  let t := stripWs s
  match t with
  | '+' :: rest =>
    if pyIntDigits rest then some (digitsToNat (rest.filter (· ≠ '_')) : Int)
    else none
  | '-' :: rest =>
    if pyIntDigits rest then some (-(digitsToNat (rest.filter (· ≠ '_')) : Int))
    else none
  | _ =>
    if pyIntDigits t then some (digitsToNat (t.filter (· ≠ '_')) : Int)
    else none

/-- Python `p in s` substring test. -/
def containsSubstring (p s : List Char) : Bool :=
  s.tails.any (fun t => p.isPrefixOf t)

/-- Boolean success test for `Except`. -/
def exceptIsOk : Except ε α → Bool
  | .ok _ => true
  | .error _ => false

instance [DecidableEq ε] [DecidableEq α] : DecidableEq (Except ε α) := by
  intro x y
  cases x <;> cases y
  case error.error a b =>
    exact if h : a = b then isTrue (by rw [h]) else isFalse (by simp [h])
  case ok.ok a b =>
    exact if h : a = b then isTrue (by rw [h]) else isFalse (by simp [h])
  case error.ok a b => exact isFalse (by simp)
  case ok.error a b => exact isFalse (by simp)

/-! ### `parse_service_port` (server.py lines 151-171) -/

/-- Result shape of `parse_service_port`. -/
structure ServicePort where
  name : List Char
  protocol : List Char
  container_port : Int
  host_port : Option Nat
  deriving DecidableEq, Repr

/-- `parse_service_port(s)` from server.py: `name, protocol, port =
s.split(':')` (ValueError on a different field count), protocol must be
`tcp`/`pty`/`http` (AssertionError), `port = int(port)` (ValueError),
`port <= 1024` and `port in (2000, 2001)` rejected; errors are modelled
as `Except.error` with the source's message. -/
def parse_service_port (s : List Char) : Except (List Char) ServicePort :=
  match splitOnChar ':' s with
  | [name, protocol, port] =>
    if protocol = "tcp".data ∨ protocol = "pty".data ∨ protocol = "http".data then
      match pyInt? port with
      | none => .error "Invalid port number".data
      | some p =>
        if p ≤ 1024 then
          .error "Service port number must be larger than 1024.".data
        else if p = 2000 ∨ p = 2001 then
          .error "Service port 2000 and 2001 is reserved for internal use.".data
        else .ok ⟨name, protocol, p, none⟩
    else .error "Unsupported service port protocol".data
  | _ => .error "Invalid service port definition format".data

/-! ### `get_kernel_id_from_container` (server.py lines 125-138) -/

/-- Container naming used by `_create_kernel` (server.py line 978):
`kernel.<image-name>.<kernel-id>`. -/
def composeContainerName (imageName kernelId : List Char) : List Char :=
  "kernel.".data ++ imageName ++ '.' :: kernelId

/-- `get_kernel_id_from_container(name)` for a string argument:
`name.lstrip('/')`, reject names not starting with `kernel.`, then
`name.rsplit('.', 2)[-1]`.  (`rsplit` always returns at least one field,
so the IndexError branch of the source is unreachable.) -/
def get_kernel_id_from_container (vname : List Char) : Option (List Char) :=
  let name := lstripChar '/' vname
  if startsWith "kernel.".data name then
    some ((pyRsplit '.' 2 name).getLastD [])
  else none

/-! ### Upload destination paths (`_accept_file`, server.py lines 1237-1255)

Paths are lists of components.  Python `PurePosixPath` drops empty and
`'.'` components at construction; `Path.resolve(strict=False)` eliminates
`..` lexically (symlinks are out of scope). -/

/-- Python path constructor on a string: absolute flag plus components
(empty and `.` fields dropped). -/
def pyPathParts (s : List Char) : Bool × List (List Char) :=
  let raw := splitOnChar '/' s
  let isAbs : Bool := match s with | c :: _ => c = '/' | [] => false
  (isAbs, raw.filter (fun p => decide (p ≠ [] ∧ p ≠ ['.'])))

/-- Python `base / f` where `base` is an absolute directory given by its
components: an absolute `f` replaces `base` entirely. -/
def pyJoinPath (base : List (List Char)) (f : List Char) : List (List Char) :=
  let parts := pyPathParts f
  if parts.1 then parts.2 else base ++ parts.2

/-- Lexical part of `Path.resolve`: `..` pops one component (at the root
it is a no-op, as on POSIX). -/
def resolveParts (parts : List (List Char)) : List (List Char) :=
  parts.foldl (fun acc p => if p = "..".data then acc.dropLast else acc ++ [p]) []

/-- Work directory of a kernel: `<scratch_root>/<kernel_id>/work`. -/
def workDirOf (scratch_root : List (List Char)) (kernel_id : List Char) :
    List (List Char) :=
  scratch_root ++ [kernel_id, "work".data]

/-- `_accept_file(kernel_id, filename, ...)`: the destination actually
written is `(work_dir / filename).resolve(strict=False)`.  The source
wraps this in `try/except ValueError` intending to reject destinations
escaping `work_dir`, but `resolve(strict=False)` never raises
`ValueError` for a path that merely escapes via `..`, so the
`AssertionError('malformed upload filename and path.')` branch is dead
and every destination is written unconditionally. -/
def accept_file (scratch_root : List (List Char)) (kernel_id : List Char)
    (filename : List Char) : Except Unit (List (List Char)) :=
  let work_dir := workDirOf scratch_root kernel_id
  .ok (resolveParts (pyJoinPath work_dir filename))

/-! ### `_download_file` (server.py lines 1257-1272) -/

/-- Error outcomes of `_download_file`. -/
inductive DownloadError
  | FILE_TOO_LARGE
  | FILE_NOT_FOUND
  deriving DecidableEq, Repr

/-- `_download_file`: `none` models `container.get_archive` raising
`DockerError` (re-raised as `FileNotFoundError`); otherwise the archive
size is measured and `assert fsize < 1 * 1048576, 'too large file.'`
guards returning the bytes. -/
def download_file (archive : Option (List Nat)) :
    Except DownloadError (List Nat) :=
  match archive with
  | none => .error .FILE_NOT_FOUND
  | some tarbytes =>
    if tarbytes.length < 1048576 then .ok tarbytes
    else .error .FILE_TOO_LARGE

/-! ### Association lists modelling Python `dict` (insertion-ordered) -/

/-- Python `d[k]` / `d.get(k)`. -/
def dictGet [DecidableEq κ] (k : κ) : List (κ × α) → Option α
  | [] => none
  | (k2, v) :: rest => if k2 = k then some v else dictGet k rest

/-- Python `d[k] = v`: replaces in place, appends new keys at the end. -/
def dictSet [DecidableEq κ] (k : κ) (v : α) : List (κ × α) → List (κ × α)
  | [] => [(k, v)]
  | (k2, v2) :: rest =>
    if k2 = k then (k, v) :: rest else (k2, v2) :: dictSet k v rest

/-- Python `d.pop(k, None)`. -/
def dictPop [DecidableEq κ] (k : κ) : List (κ × α) → List (κ × α)
  | [] => []
  | p :: rest => if p.1 = k then dictPop k rest else p :: dictPop k rest

/-- Python `k in d`. -/
def dictContains [DecidableEq κ] (k : κ) (l : List (κ × α)) : Bool :=
  (dictGet k l).isSome

/-! ### Sorting helper (insertion sort by a boolean comparator) -/

def insertLeB (le : α → α → Bool) (x : α) : List α → List α
  | [] => [x]
  | y :: ys => if le x y then x :: y :: ys else y :: insertLeB le x ys

def sortLeB (le : α → α → Bool) : List α → List α
  | [] => []
  | x :: xs => insertLeB le x (sortLeB le xs)

/-! ### Error kinds raised by the lifecycle code paths -/

/-- Failure outcomes of the modelled code paths, named after the §7 error
kinds where the spec names them and after the Python exception class
otherwise. -/
inductive AgentErr
  | INSUFFICIENT_CPU        -- CPUAllocMap.alloc failure
  | INSUFFICIENT_ACCEL      -- AcceleratorAllocMap.alloc failure
  | INSUFFICIENT_PORTS      -- RuntimeError at server.py line 943
  | SERVICE_PORT_PARSE (msg : List Char)  -- ValueError from parse_service_port
  | SCRATCH_EXISTS          -- FileExistsError from os.makedirs (line 869)
  | SCRATCH_MISSING         -- FileNotFoundError reading resource.txt (line 748)
  | ACCEL_MISSING           -- KeyError on self.accelerators[...] (line 825)
  | CONTAINER_CREATE_FAILED -- DockerError from containers.create (line 983)
  | CONTAINER_START_FAILED  -- DockerError from container.start (line 991)
  | ATTRIBUTE_ERROR         -- AttributeError: self._clean_kernel (line 635)
  | NOT_FOUND               -- kernel missing from the registry
  deriving DecidableEq, Repr

/-! ### CPU allocation map

Modelled from the spec: `CPUAllocMap` is imported from `.resources`, which
is not part of this repository snapshot (`src/` holds only `server.py` and
a test conftest).  Spec §4.1: initialized from a CPU mask; `alloc(n)`
reserves `n` CPUs preferring a single NUMA node, tie-break by the node
with the greatest number of currently free CPUs then by lowest node id,
failing with `INSUFFICIENT_CPU` when fewer than `n` CPUs are free;
`free(cpu_set)` returns CPUs to the pool and ignores already-free
indices; `num_cores` counts allocatable CPUs.  `topo` lists
`(cpu index, numa node)` pairs of the mask. -/
structure CPUAllocMap where
  topo : List (Nat × Nat)
  used : List Nat
  deriving DecidableEq, Repr

def CPUAllocMap.init (topo : List (Nat × Nat)) : CPUAllocMap :=
  ⟨topo, []⟩

def CPUAllocMap.num_cores (m : CPUAllocMap) : Nat :=
  m.topo.length

def CPUAllocMap.freeCpus (m : CPUAllocMap) : List Nat :=
  (m.topo.map Prod.fst).filter (fun c => decide (c ∉ m.used))

def CPUAllocMap.nodeOf (m : CPUAllocMap) (c : Nat) : Nat :=
  ((m.topo.filter (fun p => decide (p.1 = c))).map Prod.snd).headD 0

def CPUAllocMap.nodeFreeCount (m : CPUAllocMap) (node : Nat) : Nat :=
  (m.freeCpus.filter (fun c => decide (m.nodeOf c = node))).length

/-- Sort key realizing the spec's preference: nodes with more free CPUs
first, then lower node id, then lower CPU index. -/
def CPUAllocMap.cpuLe (m : CPUAllocMap) (a b : Nat) : Bool :=
  let fa := m.nodeFreeCount (m.nodeOf a)
  let fb := m.nodeFreeCount (m.nodeOf b)
  decide (fb < fa) ||
    (decide (fa = fb) &&
      (decide (m.nodeOf a < m.nodeOf b) ||
        (decide (m.nodeOf a = m.nodeOf b) && decide (a ≤ b))))

def CPUAllocMap.orderedFree (m : CPUAllocMap) : List Nat :=
  sortLeB m.cpuLe m.freeCpus

def CPUAllocMap.alloc (m : CPUAllocMap) (n : Nat) :
    Except AgentErr ((Nat × List Nat) × CPUAllocMap) :=
  if m.freeCpus.length < n then .error .INSUFFICIENT_CPU
  else
    let chosen := m.orderedFree.take n
    let node := match chosen with | [] => 0 | c :: _ => m.nodeOf c
    .ok ((node, chosen), ⟨m.topo, m.used ++ chosen⟩)

def CPUAllocMap.free (m : CPUAllocMap) (cpu_set : List Nat) : CPUAllocMap :=
  ⟨m.topo, m.used.filter (fun c => decide (c ∉ cpu_set))⟩

/-! ### Accelerator allocation map

Modelled from the spec: `AcceleratorAllocMap` also lives in `.resources`.
Spec §4.1: per-device free share in `[0, 1]`; `alloc(total_share)`
returns a per-device map by greedy packing, filling the device with the
most free share first; fails with `INSUFFICIENT_ACCEL` if the request
exceeds the total free share; `free(per_device_map)` restores. -/
structure AcceleratorAllocMap where
  devices : List (Nat × ℚ)
  deriving DecidableEq, Repr

def lookupShare (d : Nat) (l : List (Nat × ℚ)) : ℚ :=
  (dictGet d l).getD 0

def AcceleratorAllocMap.greedyOrder (m : AcceleratorAllocMap) :
    List (Nat × ℚ) :=
  sortLeB (fun a b => decide (b.2 < a.2) ||
    (decide (a.2 = b.2) && decide (a.1 ≤ b.1))) m.devices

/-- Greedy walk assigning `min(free, remaining)` per device. -/
def takeShares : ℚ → List (Nat × ℚ) → List (Nat × ℚ)
  | _, [] => []
  | r, (d, f) :: rest =>
    if r ≤ 0 then []
    else (d, min f r) :: takeShares (r - min f r) rest

def AcceleratorAllocMap.alloc (m : AcceleratorAllocMap) (total : ℚ) :
    Except AgentErr (List (Nat × ℚ) × AcceleratorAllocMap) :=
  if (m.devices.map Prod.snd).sum < total then .error .INSUFFICIENT_ACCEL
  else
    let taken := takeShares total m.greedyOrder
    .ok (taken,
      ⟨m.devices.map (fun df => (df.1, df.2 - lookupShare df.1 taken))⟩)

def AcceleratorAllocMap.free (m : AcceleratorAllocMap)
    (shares : List (Nat × ℚ)) : AcceleratorAllocMap :=
  ⟨m.devices.map (fun df => (df.1, df.2 + lookupShare df.1 shares))⟩

/-! ### Data model: resource spec, kernel record, agent state -/

/-- A virtual-folder mount (`Mount` of `.resources`; permission is always
`READ_WRITE` at creation, server.py line 840). -/
structure VMount where
  host_path : List Char
  kernel_path : List Char
  deriving DecidableEq, Repr

/-- `KernelResourceSpec` of `.resources` as used by server.py: reserved
share kinds `_cpu`/`_mem`/`_gpu`/`_tpu` carry amounts; non-reserved kinds
(`cuda`, `tpu`) hold per-device share maps. -/
structure KernelResourceSpec where
  cpu_share : ℚ
  mem_share : ℚ
  gpu_share : ℚ
  tpu_share : ℚ
  accelShares : List (List Char × List (Nat × ℚ))
  mounts : List VMount
  numa_node : Nat
  cpu_set : List Nat
  memory_limit : Int
  scratch_disk_size : Nat
  deriving DecidableEq, Repr

/-- Image reference plus the consumed labels, pre-parsed except for the
raw `service-ports` label string which `_create_kernel` parses itself. -/
structure ImageInfo where
  name : List Char
  canonical : List Char
  labels_version : Nat
  labels_timeout : Nat
  labels_service_ports : List Char
  deriving DecidableEq, Repr

/-- Registry value (server.py lines 1023-1038). -/
structure KernelRecord where
  lang : ImageInfo
  version : Nat
  container_id : List Char
  repl_in_port : Nat
  repl_out_port : Nat
  stdin_port : Nat
  stdout_port : Nat
  service_ports : List ServicePort
  host_ports : List Nat
  exec_timeout : Nat
  last_used : Nat
  resource_spec : KernelResourceSpec
  deriving DecidableEq, Repr

/-- `RestartTracker` event flags (the per-tracker `request_lock` is held
for the whole modelled restart body). -/
structure TrackerState where
  destroy_event : Bool
  done_event : Bool
  deriving DecidableEq, Repr

structure AgentConfig where
  port_lo : Nat
  port_hi : Nat
  idle_timeout : Nat
  deriving DecidableEq, Repr

/-- The agent's mutable state (`AgentRPCServer.__init__`, lines 200-240):
port pool as the set of free host ports, CPU map, accelerator maps keyed
by kind, the kernel registry, restart trackers, and the set of existing
scratch directories together with their persisted `resource.txt`. -/
structure AgentState where
  config : AgentConfig
  port_pool : Finset Nat
  container_cpu_map : CPUAllocMap
  accelerators : List (List Char × AcceleratorAllocMap)
  container_registry : List (List Char × KernelRecord)
  restarting_kernels : List (List Char × TrackerState)
  scratch : List (List Char × KernelResourceSpec)
  deriving DecidableEq

/-- Fresh agent: `port_pool = set(range(lo, hi + 1))` (lines 226-229),
empty registry, no trackers, no scratch directories. -/
def AgentState.initial (cfg : AgentConfig) (topo : List (Nat × Nat))
    (accels : List (List Char × AcceleratorAllocMap)) : AgentState :=
  { config := cfg,
    port_pool := Finset.Icc cfg.port_lo cfg.port_hi,
    container_cpu_map := CPUAllocMap.init topo,
    accelerators := accels,
    container_registry := [],
    restarting_kernels := [],
    scratch := [] }

/-! ### `_create_kernel` pipeline (server.py lines 714-1053) -/

/-- Python `int(q)` for a `Decimal`: truncation toward zero. -/
def pyIntOfRat (q : ℚ) : Int :=
  if q < 0 then -((-q).floor) else q.floor

/-- Request payload of `create_kernel` (`kernel_config`): resolved image,
`limits` decimals, vfolder mounts `(name, host, id)`, optional pinned
`cpu_set`. -/
structure KernelCreateConfig where
  lang : ImageInfo
  limits_cpu : ℚ
  limits_mem : ℚ
  limits_gpu : ℚ
  limits_tpu : ℚ
  mounts : List (List Char × List Char × List Char)
  cpu_set : Option (List Nat)
  deriving DecidableEq, Repr

/-- Outcomes of the container daemon during create/start; ports reported
by the daemon after start equal the manually bound ones (the source
asserts precisely this at line 1007). -/
structure DockerEnv where
  createFails : Bool
  startFails : Bool
  container_id : List Char
  deriving DecidableEq, Repr

def normalEnv (cid : List Char) : DockerEnv :=
  ⟨false, false, cid⟩

/-- Result dictionary of `_create_kernel` (lines 1043-1053), minus the
serialized spec echo. -/
structure CreateResult where
  id : List Char
  repl_in_port : Nat
  repl_out_port : Nat
  stdin_port : Nat
  stdout_port : Nat
  service_ports : List ServicePort
  container_id : List Char
  deriving DecidableEq, Repr

/-- CPU part of PHASE 2 (lines 807-817): without a pinned set,
`num_cores = min(container_cpu_map.num_cores, int(cpu_slot))` is
allocated; with a pinned set, no allocation happens and the NUMA node is
looked up for its first CPU (`libnuma.node_of_cpu` modelled through the
topology). -/
def realizeCpuShare (m : CPUAllocMap) (pinned : Option (List Nat))
    (cpu_slot : ℚ) : Except AgentErr ((Nat × List Nat) × CPUAllocMap) :=
  match pinned with
  | none =>
    let requested := (pyIntOfRat cpu_slot).toNat
    m.alloc (min m.num_cores requested)
  | some cs => .ok ((m.nodeOf (cs.headD 0), cs), m)

/-- Vfolder mounts (lines 836-843): `<vfolder_mount>/<host>/<id>` mapped
to `/home/work/<name>`. -/
def vfolderMounts (mounts : List (List Char × List Char × List Char)) :
    List VMount :=
  mounts.map (fun m =>
    ⟨"/mnt/".data ++ m.2.1 ++ '/' :: m.2.2, "/home/work/".data ++ m.1⟩)

/-- PHASE 1 and PHASE 2 (lines 745-847): when restarting, re-read the
stored resource spec verbatim (`FileNotFoundError` if the scratch
directory is gone); otherwise build a fresh spec: allocate CPUs, set
`memory_limit = int(mem_slot * 2**30)`, allocate `cuda`/`tpu` shares for
positive slots (KeyError when the accelerator kind was not detected), and
materialize vfolder mounts.  Failures after the CPU allocation leave the
CPU map mutated, exactly as the source does. -/
def planResources (kernel_id : List Char) (cfg : KernelCreateConfig)
    (restarting : Bool) (s : AgentState) :
    Except AgentErr KernelResourceSpec × AgentState :=
  if restarting then
    match dictGet kernel_id s.scratch with
    | none => (.error .SCRATCH_MISSING, s)
    | some spec => (.ok spec, s)
  else
    match realizeCpuShare s.container_cpu_map cfg.cpu_set cfg.limits_cpu with
    | .error e => (.error e, s)
    | .ok ((numa_node, cpu_set), cpuMap') =>
      let s1 := {s with container_cpu_map := cpuMap'}
      let memory_limit := pyIntOfRat (cfg.limits_mem * ((2 : ℚ) ^ 30))
      let baseSpec : KernelResourceSpec :=
        { cpu_share := cfg.limits_cpu, mem_share := cfg.limits_mem,
          gpu_share := cfg.limits_gpu, tpu_share := cfg.limits_tpu,
          accelShares := [], mounts := vfolderMounts cfg.mounts,
          numa_node := numa_node, cpu_set := cpu_set,
          memory_limit := memory_limit, scratch_disk_size := 0 }
      if 0 < cfg.limits_gpu then
        match dictGet "cuda".data s1.accelerators with
        | none => (.error .ACCEL_MISSING, s1)
        | some accl =>
          match accl.alloc cfg.limits_gpu with
          | .error e => (.error e, s1)
          | .ok (cudaShares, accl') =>
            let accels2 := dictSet "cuda".data accl' s1.accelerators
            let s2 := {s1 with accelerators := accels2}
            let spec1 := {baseSpec with
              accelShares := [("cuda".data, cudaShares)]}
            if 0 < cfg.limits_tpu then
              match dictGet "tpu".data s2.accelerators with
              | none => (.error .ACCEL_MISSING, s2)
              | some acclT =>
                match acclT.alloc cfg.limits_tpu with
                | .error e => (.error e, s2)
                | .ok (tpuShares, acclT') =>
                  let accelsT := dictSet "tpu".data acclT' s2.accelerators
                  (.ok {spec1 with accelShares :=
                      [("cuda".data, cudaShares), ("tpu".data, tpuShares)]},
                    {s2 with accelerators := accelsT})
            else (.ok spec1, s2)
      else
        if 0 < cfg.limits_tpu then
          match dictGet "tpu".data s1.accelerators with
          | none => (.error .ACCEL_MISSING, s1)
          | some acclT =>
            match acclT.alloc cfg.limits_tpu with
            | .error e => (.error e, s1)
            | .ok (tpuShares, acclT') =>
              let accelsT := dictSet "tpu".data acclT' s1.accelerators
              (.ok {baseSpec with
                  accelShares := [("tpu".data, tpuShares)]},
                {s1 with accelerators := accelsT})
        else (.ok baseSpec, s1)

/-- PHASE 3 (lines 864-902): skipped when restarting; otherwise
`os.makedirs(work_dir)` fails with `FileExistsError` when the scratch
directory already exists, else `environ.txt` and `resource.txt` are
written (modelled as recording the spec under the kernel id). -/
def persistScratch (kernel_id : List Char) (spec : KernelResourceSpec)
    (restarting : Bool) (s : AgentState) :
    Except AgentErr Unit × AgentState :=
  if restarting then (.ok (), s)
  else if dictContains kernel_id s.scratch then (.error .SCRATCH_EXISTS, s)
  else (.ok (), {s with scratch := dictSet kernel_id spec s.scratch})

/-- Service-port label parsing loop (lines 930-936): split the label on
commas, skip empty items, parse each with `parse_service_port`
(propagating its errors). -/
def parseServicePortsAux : List (List Char) →
    Except (List Char) (List ServicePort)
  | [] => .ok []
  | item :: rest =>
    if item = [] then parseServicePortsAux rest
    else
      match parse_service_port item with
      | .error e => .error e
      | .ok sp =>
        match parseServicePortsAux rest with
        | .error e => .error e
        | .ok sps => .ok (sp :: sps)

def parseServicePorts (label : List Char) :
    Except (List Char) (List ServicePort) :=
  parseServicePortsAux (splitOnChar ',' label)

/-- Exposed container ports (lines 928-940): `[2000, 2001]`, then every
service container port, then the legacy `[2002, 2003]` when the image
name contains `git`. -/
def exposedPortsOf (img : ImageInfo) :
    Except (List Char) (List Int × List ServicePort) :=
  match parseServicePorts img.labels_service_ports with
  | .error e => .error e
  | .ok sps =>
    let base : List Int := [2000, 2001] ++ sps.map (·.container_port)
    .ok ((if containsSubstring "git".data img.name
      then base ++ [2002, 2003] else base), sps)

/-- One `port_pool.pop()` per exposed port (lines 944-947); CPython's
`set.pop` choice is modelled as the least free port (spec §4.1 allows any
deterministic choice). -/
def drawPorts : Nat → Finset Nat → Option (List Nat × Finset Nat)
  | 0, pool => some ([], pool)
  | n + 1, pool =>
    if h : pool.Nonempty then
      match drawPorts n (pool.erase (pool.min' h)) with
      | none => none
      | some (ps, pool') => some (pool.min' h :: ps, pool')
    else none

/-- Rollback block of `_create_kernel` (lines 992-1001): remove the
scratch directory, return the drawn host ports to the pool, free the CPU
set, free every non-reserved accelerator share. -/
def freeAccelShares (shares : List (List Char × List (Nat × ℚ)))
    (accels : List (List Char × AcceleratorAllocMap)) :
    List (List Char × AcceleratorAllocMap) :=
  shares.foldl (fun acc km =>
    match dictGet km.1 acc with
    | none => acc
    | some am => dictSet km.1 (am.free km.2) acc) accels

def rollbackCreate (kernel_id : List Char) (spec : KernelResourceSpec)
    (host_ports : List Nat) (s : AgentState) : AgentState :=
  { s with
    scratch := dictPop kernel_id s.scratch,
    port_pool := s.port_pool ∪ host_ports.toFinset,
    container_cpu_map := s.container_cpu_map.free spec.cpu_set,
    accelerators := freeAccelShares spec.accelShares s.accelerators }

/-- Port-assignment loop after start (lines 1003-1017), with the
daemon-reported host port equal to the drawn one: service container
ports get their host port recorded; 2000/2001 become the REPL ports;
2002/2003 the legacy stdin/stdout ports. -/
def assignPorts (pairs : List (Int × Nat))
    (svc : List (Int × ServicePort)) :
    List (Int × ServicePort) × Nat × Nat × Nat × Nat :=
  pairs.foldl (fun (acc : List (Int × ServicePort) × Nat × Nat × Nat × Nat)
      (pr : Int × Nat) =>
    let d := acc.1
    let ri := acc.2.1
    let ro := acc.2.2.1
    let si := acc.2.2.2.1
    let so := acc.2.2.2.2
    match dictGet pr.1 d with
    | some sp =>
      (dictSet pr.1 {sp with host_port := some pr.2} d, ri, ro, si, so)
    | none =>
      if pr.1 = 2000 then (d, pr.2, ro, si, so)
      else if pr.1 = 2001 then (d, ri, pr.2, si, so)
      else if pr.1 = 2002 then (d, ri, ro, pr.2, so)
      else if pr.1 = 2003 then (d, ri, ro, si, pr.2)
      else (d, ri, ro, si, so))
    (svc, 0, 0, 0, 0)

/-- `_create_kernel(kernel_id, kernel_config, restarting)` under a daemon
environment (lines 714-1053).  The image inspect/pull step precedes every
allocation and has no modelled state effect.  Phases: plan resources,
persist the scratch config, parse service-port labels, check and draw
host ports, then the guarded create/start step whose failure triggers
`rollbackCreate`; on success the record is published in the registry. -/
def _create_kernel (kernel_id : List Char) (cfg : KernelCreateConfig)
    (restarting : Bool) (env : DockerEnv) (now : Nat) (s : AgentState) :
    Except AgentErr CreateResult × AgentState :=
  match planResources kernel_id cfg restarting s with
  | (.error e, s1) => (.error e, s1)
  | (.ok spec, s1) =>
    match persistScratch kernel_id spec restarting s1 with
    | (.error e, s2) => (.error e, s2)
    | (.ok _, s2) =>
      match exposedPortsOf cfg.lang with
      | .error e => (.error (.SERVICE_PORT_PARSE e), s2)
      | .ok (exposed, sps) =>
        if s2.port_pool.card < exposed.length then
          (.error .INSUFFICIENT_PORTS, s2)
        else
          match drawPorts exposed.length s2.port_pool with
          | none => (.error .INSUFFICIENT_PORTS, s2)
          | some (host_ports, pool') =>
            let s3 := {s2 with port_pool := pool'}
            if env.createFails then
              (.error .CONTAINER_CREATE_FAILED,
                rollbackCreate kernel_id spec host_ports s3)
            else if env.startFails then
              (.error .CONTAINER_START_FAILED,
                rollbackCreate kernel_id spec host_ports s3)
            else
              let svc0 := sps.foldl
                (fun d sp => dictSet sp.container_port sp d) []
              let asg := assignPorts (exposed.zip host_ports) svc0
              let record : KernelRecord :=
                { lang := cfg.lang,
                  version := cfg.lang.labels_version,
                  container_id := env.container_id,
                  repl_in_port := asg.2.1,
                  repl_out_port := asg.2.2.1,
                  stdin_port := asg.2.2.2.1,
                  stdout_port := asg.2.2.2.2,
                  service_ports := asg.1.map Prod.snd,
                  host_ports := host_ports,
                  exec_timeout := cfg.lang.labels_timeout,
                  last_used := now,
                  resource_spec := spec }
              let res : CreateResult :=
                { id := kernel_id,
                  repl_in_port := asg.2.1,
                  repl_out_port := asg.2.2.1,
                  stdin_port := asg.2.2.2.1,
                  stdout_port := asg.2.2.2.2,
                  service_ports := asg.1.map Prod.snd,
                  container_id := env.container_id }
              (.ok res,
                {s3 with container_registry := dictSet kernel_id record s3.container_registry})

/-! ### `clean_kernel`, destroy and restart (lines 613-652, 1055-1099,
1408-1456) -/

def trackerSetDestroyEvent (k : List Char)
    (l : List (List Char × TrackerState)) :
    List (List Char × TrackerState) :=
  l.map (fun p => if p.1 = k then (p.1, {p.2 with destroy_event := true}) else p)

def trackerClearDestroyEvent (k : List Char)
    (l : List (List Char × TrackerState)) :
    List (List Char × TrackerState) :=
  l.map (fun p => if p.1 = k then (p.1, {p.2 with destroy_event := false}) else p)

/-- `clean_kernel(kernel_id)` (lines 1408-1456): if the kernel is in the
registry, delete its container and return the host ports that fall inside
the configured port range to the pool; then, when a restart tracker is
present, signal `destroy_event` and stop (allocations persist for the
re-create); otherwise delete the scratch directory, free the CPU set and
accelerator shares of the stored resource spec, and drop the registry
entry. -/
def clean_kernel (kernel_id : List Char) (s : AgentState) : AgentState :=
  let s1 :=
    match dictGet kernel_id s.container_registry with
    | some info =>
      let lo := s.config.port_lo
      let hi := s.config.port_hi
      let restored := info.host_ports.filter
        (fun p => decide (lo ≤ p ∧ p ≤ hi))
      {s with port_pool := s.port_pool ∪ restored.toFinset}
    | none => s
  if dictContains kernel_id s1.restarting_kernels then
    {s1 with restarting_kernels := trackerSetDestroyEvent kernel_id s1.restarting_kernels}
  else
    let s2 := {s1 with scratch := dictPop kernel_id s1.scratch}
    match dictGet kernel_id s2.container_registry with
    | some info =>
      let spec := info.resource_spec
      {s2 with
        container_cpu_map := s2.container_cpu_map.free spec.cpu_set,
        accelerators := freeAccelShares spec.accelShares s2.accelerators,
        container_registry := dictPop kernel_id s2.container_registry}
    | none => s2

/-- `_destroy_kernel` under a normally-behaving daemon, together with the
`die`-event reaction that has completed by quiescence: whether or not the
kernel is registered, the state effect is that of `clean_kernel` (for a
registered kernel the container is killed and the reaper schedules
`clean_kernel`; for a missing one `_destroy_kernel` calls it directly,
lines 1055-1065). -/
def destroyAndReap (kernel_id : List Char) (s : AgentState) : AgentState :=
  clean_kernel kernel_id s

/-- `restart_kernel(kernel_id, new_config)` (lines 613-652).
`destroyEventFires` tells whether `clean_kernel` ran (setting
`destroy_event`) within the 30-second wait.  On timeout the source pops
the tracker and then evaluates `self._clean_kernel`, an attribute that
does not exist on `AgentRPCServer` (the class defines `clean_kernel`), so
an `AttributeError` is raised before any cleanup future is created and
the pending `raise` of the `TimeoutError` is never reached.  The returned
Bool records whether a best-effort cleanup was scheduled. -/
def restart_kernel (kernel_id : List Char) (cfg : KernelCreateConfig)
    (env : DockerEnv) (now : Nat) (destroyEventFires : Bool)
    (s : AgentState) :
    (Except AgentErr CreateResult × AgentState) × Bool :=
  let tracker := (dictGet kernel_id s.restarting_kernels).getD ⟨false, false⟩
  let s1 := {s with restarting_kernels := dictSet kernel_id tracker s.restarting_kernels}
  if destroyEventFires then
    let s2 := destroyAndReap kernel_id s1
    let s3 := {s2 with restarting_kernels := trackerClearDestroyEvent kernel_id s2.restarting_kernels}
    match _create_kernel kernel_id cfg true env now s3 with
    | (.error e, s4) => ((.error e, s4), false)
    | (.ok res, s4) =>
      (((.ok res),
        {s4 with restarting_kernels := dictPop kernel_id s4.restarting_kernels}), false)
  else
    let s2 := {s1 with restarting_kernels := dictPop kernel_id s1.restarting_kernels}
    ((.error .ATTRIBUTE_ERROR, s2), false)

/-! ### Quiescent operation traces (C2) -/

/-- One completed lifecycle operation, as observed at quiescence. -/
inductive AgentOp
  | create (kernel_id : List Char) (cfg : KernelCreateConfig)
      (cid : List Char) (now : Nat)
  | destroy (kernel_id : List Char)
  | restart (kernel_id : List Char) (cfg : KernelCreateConfig)
      (cid : List Char) (now : Nat)

def stepOp (s : AgentState) : AgentOp → AgentState
  | .create k cfg cid now =>
    (_create_kernel k cfg false (normalEnv cid) now s).2
  | .destroy k => destroyAndReap k s
  | .restart k cfg cid now =>
    (restart_kernel k cfg (normalEnv cid) now true s).1.2

def runOps (s : AgentState) : List AgentOp → AgentState
  | [] => s
  | op :: ops => runOps (stepOp s op) ops

/-- Validity of an operation against the current state: restarts target a
live kernel and re-supply its image (the control plane restarts a kernel
with the configuration it was created from). -/
def validOp (s : AgentState) : AgentOp → Prop
  | .create _ _ _ _ => True
  | .destroy _ => True
  | .restart k cfg _ _ =>
    ∃ record, dictGet k s.container_registry = some record ∧
      cfg.lang = record.lang

def validTrace : AgentState → List AgentOp → Prop
  | _, [] => True
  | s, op :: ops => validOp s op ∧ validTrace (stepOp s op) ops

/-- Union of the `host_ports` finsets of a registry list. -/
def regPorts (l : List (List Char × KernelRecord)) : Finset Nat :=
  l.foldr (fun kv acc => kv.2.host_ports.toFinset ∪ acc) ∅

/-- Union of the `host_ports` lists of all live kernels. -/
def livePorts (s : AgentState) : Finset Nat :=
  regPorts s.container_registry

/-- P1/I1 port conservation at quiescence: the free pool and the live
kernels' `host_ports` are pairwise disjoint (stated via empty
intersections) and union to the configured inclusive range. -/
def portInv (s : AgentState) : Prop :=
  s.port_pool ∪ livePorts s =
    Finset.Icc s.config.port_lo s.config.port_hi ∧
  s.port_pool ∩ livePorts s = ∅ ∧
  List.Pairwise (fun a b =>
    a.2.host_ports.toFinset ∩ b.2.host_ports.toFinset = ∅)
    s.container_registry

/-- Auxiliary invariant carried through the induction for P1: each live
kernel has de-duplicated host ports, a surviving scratch directory, and an
image whose service-port labels parse to as many exposed ports as it holds
host ports. -/
def entryOK (s : AgentState) (kv : List Char × KernelRecord) : Prop :=
  kv.2.host_ports.Nodup ∧
  dictGet kv.1 s.scratch ≠ none ∧
  ∃ exposed sps, exposedPortsOf kv.2.lang = .ok (exposed, sps) ∧
    exposed.length = kv.2.host_ports.length

/-- Full induction invariant: port conservation, no pending restart
trackers at quiescence, registry keys unique, and `entryOK` per kernel. -/
def stateInv (s : AgentState) : Prop :=
  portInv s ∧ s.restarting_kernels = [] ∧
  (s.container_registry.map Prod.fst).Nodup ∧
  ∀ kv ∈ s.container_registry, entryOK s kv

/-! ### Docker event monitor (C8, lines 1366-1406) -/

structure DockerEvent where
  type_ : List Char
  action : List Char
  actorId : List Char
  actorName : List Char
  deriving DecidableEq, Repr

/-- `(Type, Action, Actor.ID)` footprint used for de-duplication. -/
def footprint (ev : DockerEvent) : List Char × List Char × List Char :=
  (ev.type_, ev.action, ev.actorId)

/-- One iteration of `monitor()`: skip an event whose footprint equals
the previous one; otherwise remember the footprint and, on a `die`
action whose container name resolves to a kernel id, publish
`kernel_terminated` for it (the returned list). -/
def monitorStep (last : Option (List Char × List Char × List Char))
    (ev : DockerEvent) :
    Option (List Char × List Char × List Char) × List (List Char) :=
  let fp := footprint ev
  if last = some fp then (last, [])
  else
    (some fp,
      if ev.action = "die".data then
        match get_kernel_id_from_container ev.actorName with
        | some kid => [kid]
        | none => []
      else [])

/-- Kernel ids for which `kernel_terminated` is published while consuming
the event list. -/
def monitorRun (last : Option (List Char × List Char × List Char)) :
    List DockerEvent → List (List Char)
  | [] => []
  | ev :: evs =>
    let st := monitorStep last ev
    st.2 ++ monitorRun st.1 evs

/-! ### `last_used` touching (C9, lines 174-183 and 654-667, 1131-1144) -/

/-- The `update_last_used` decorator body: touch `last_used` when the
kernel is registered, swallow the `KeyError` otherwise. -/
def update_last_used : List (List Char × KernelRecord) → List Char → Nat →
    List (List Char × KernelRecord)
  | [], _, _ => []
  | p :: rest, kernel_id, now =>
    if p.1 = kernel_id then (p.1, {p.2 with last_used := now}) :: rest
    else p :: update_last_used rest kernel_id now

/-- The user-facing kernel-addressed RPC operations except `ping`. -/
inductive RpcOp
  | pingKernel | createKernel | destroyKernel | interruptKernel
  | getCompletions | getLogs | restartKernel | executeOp
  | startService | uploadFile | downloadFile | listFiles
  deriving DecidableEq, Repr

/-- Registry effect of each handler's entry phase, before its main work.
Every handler except `execute` carries the `@update_last_used` decorator
(lines 572-698); `execute` performs the identical touch inside `_execute`
(line 1144) after looking the kernel up, before any runner interaction. -/
def rpcEntryTouch (op : RpcOp) (registry : List (List Char × KernelRecord))
    (kernel_id : List Char) (now : Nat) :
    List (List Char × KernelRecord) :=
  match op with
  | .pingKernel => update_last_used registry kernel_id now
  | .createKernel => update_last_used registry kernel_id now
  | .destroyKernel => update_last_used registry kernel_id now
  | .interruptKernel => update_last_used registry kernel_id now
  | .getCompletions => update_last_used registry kernel_id now
  | .getLogs => update_last_used registry kernel_id now
  | .restartKernel => update_last_used registry kernel_id now
  | .executeOp => update_last_used registry kernel_id now
  | .startService => update_last_used registry kernel_id now
  | .uploadFile => update_last_used registry kernel_id now
  | .downloadFile => update_last_used registry kernel_id now
  | .listFiles => update_last_used registry kernel_id now

/-! ### Concrete sample data for witnesses and counterexamples -/

/-- A resolved image with no service-port labels. -/
def sampleImage : ImageInfo :=
  ⟨"python".data, "lablup/kernel-python:3.6".data, 1, 10, []⟩

/-- The same image name but with a service-port label, so that it exposes
three container ports instead of two. -/
def sampleImageSvc : ImageInfo :=
  ⟨"python".data, "lablup/kernel-python:3.6".data, 1, 10, "jp:http:8080".data⟩

/-- `create_kernel` request: `cpu_slot 2, mem_slot 1, gpu_slot 0,
tpu_slot 0`, no mounts, no pinned CPU set. -/
def sampleCfg : KernelCreateConfig :=
  ⟨sampleImage, 2, 1, 0, 0, [], none⟩

/-- Like `sampleCfg` but asking for `cpu_slot 4`. -/
def sampleCfg4 : KernelCreateConfig :=
  ⟨sampleImage, 4, 1, 0, 0, [], none⟩

/-- Like `sampleCfg` but with the service-port image. -/
def sampleCfgSvc : KernelCreateConfig :=
  ⟨sampleImageSvc, 2, 1, 0, 0, [], none⟩

/-- A sample resource spec and registry record for witness states. -/
def sampleSpec : KernelResourceSpec :=
  ⟨2, 1, 0, 0, [], [], 0, [0, 1], 1073741824, 0⟩

def sampleRecord : KernelRecord :=
  ⟨sampleImage, 1, "c1".data, 30000, 30001, 0, 0, [], [30000, 30001],
    10, 5, sampleSpec⟩

/-- A fresh agent whose port range [30000, 30000] holds a single port. -/
def onePortState : AgentState :=
  AgentState.initial ⟨30000, 30000, 600⟩ [(0, 0), (1, 0)] []

/-- A fresh agent whose port range [30000, 30001] holds two ports. -/
def twoPortState : AgentState :=
  AgentState.initial ⟨30000, 30001, 600⟩ [(0, 0), (1, 0)] []

/-- A fresh agent with six ports and four CPUs. -/
def sixPortState : AgentState :=
  AgentState.initial ⟨30000, 30005, 600⟩ [(0, 0), (1, 0), (2, 0), (3, 0)] []

/-! ## Lemmas about the string primitives -/

theorem splitOnChar_ne_nil (sep : Char) (s : List Char) :
    splitOnChar sep s ≠ [] := by
  induction s with
  | nil => simp [splitOnChar]
  | cons c rest ih =>
    simp only [splitOnChar]
    split
    · simp
    · cases h : splitOnChar sep rest <;> simp

theorem splitOnChar_of_not_mem {sep : Char} {a : List Char} (h : sep ∉ a) :
    splitOnChar sep a = [a] := by
  induction a with
  | nil => rfl
  | cons c rest ih =>
    simp only [List.mem_cons, not_or] at h
    have hc : ¬(c = sep) := fun hc => h.1 hc.symm
    simp only [splitOnChar, if_neg hc]
    rw [ih h.2]

theorem splitOnChar_append {sep : Char} {a : List Char} (h : sep ∉ a)
    (rest : List Char) :
    splitOnChar sep (a ++ sep :: rest) = a :: splitOnChar sep rest := by
  induction a with
  | nil => simp [splitOnChar]
  | cons c a' ih =>
    simp only [List.mem_cons, not_or] at h
    have hc : ¬(c = sep) := fun hc => h.1 hc.symm
    simp only [List.cons_append, splitOnChar, if_neg hc, List.append_eq]
    rw [ih h.2]

theorem not_mem_of_mem_splitOnChar {sep : Char} {s p : List Char}
    (hp : p ∈ splitOnChar sep s) : sep ∉ p := by
  induction s generalizing p with
  | nil =>
    simp only [splitOnChar, List.mem_singleton] at hp
    simp [hp]
  | cons c rest ih =>
    simp only [splitOnChar] at hp
    by_cases hc : c = sep
    · rw [if_pos hc] at hp
      rcases List.mem_cons.1 hp with h | h
      · simp [h]
      · exact ih h
    · rw [if_neg hc] at hp
      rcases hq : splitOnChar sep rest with _ | ⟨q, qs⟩
      · exact absurd hq (splitOnChar_ne_nil sep rest)
      · rw [hq] at hp
        rcases List.mem_cons.1 hp with h | h
        · subst h
          have hq' : sep ∉ q := ih (hq ▸ List.mem_cons_self q qs)
          simp only [List.mem_cons, not_or]
          exact ⟨fun hsc => hc hsc.symm, hq'⟩
        · exact ih (hq ▸ List.mem_cons_of_mem q h)

theorem joinWithChar_splitOnChar (sep : Char) (s : List Char) :
    joinWithChar sep (splitOnChar sep s) = s := by
  induction s with
  | nil => rfl
  | cons c rest ih =>
    simp only [splitOnChar]
    by_cases hc : c = sep
    · rw [if_pos hc]
      rcases hq : splitOnChar sep rest with _ | ⟨q, qs⟩
      · exact absurd hq (splitOnChar_ne_nil sep rest)
      · rw [hq] at ih
        simp [joinWithChar, ih, hc]
    · rw [if_neg hc]
      rcases hq : splitOnChar sep rest with _ | ⟨q, qs⟩
      · exact absurd hq (splitOnChar_ne_nil sep rest)
      · rw [hq] at ih
        cases qs with
        | nil => simpa [joinWithChar] using congrArg (c :: ·) ih
        | cons q2 qs2 => simpa [joinWithChar] using congrArg (c :: ·) ih

theorem breakAtChar_append {sep : Char} {a : List Char} (h : sep ∉ a)
    (b : List Char) : breakAtChar sep (a ++ sep :: b) = some (a, b) := by
  induction a with
  | nil => simp [breakAtChar]
  | cons c a' ih =>
    simp only [List.mem_cons, not_or] at h
    have hc : ¬(c = sep) := fun hc => h.1 hc.symm
    simp only [List.cons_append, breakAtChar, if_neg hc, List.append_eq]
    rw [ih h.2]

theorem getLastD_append_singleton (l : List (List Char)) (x d : List Char) :
    (l ++ [x]).getLastD d = x := by
  simp

theorem pyRsplit_getLastD {sep : Char} {kid : List Char} (h : sep ∉ kid)
    (n : Nat) (rest : List Char) :
    (pyRsplit sep (n + 1) (rest ++ sep :: kid)).getLastD [] = kid := by
  have hrev : (rest ++ sep :: kid).reverse =
      kid.reverse ++ sep :: rest.reverse := by
    simp [List.reverse_append]
  have hkid : sep ∉ kid.reverse := by simpa using h
  rw [pyRsplit, hrev]
  simp only [splitLimit, breakAtChar_append hkid]
  simp [getLastD_append_singleton]

theorem lstripChar_of_head_ne {c x : Char} {rest : List Char} (h : x ≠ c) :
    lstripChar c (x :: rest) = x :: rest := by
  simp [lstripChar, h]

theorem isPrefixOf_append (p t : List Char) : p.isPrefixOf (p ++ t) = true := by
  induction p with
  | nil => simp [List.isPrefixOf]
  | cons c p' ih => simp [List.isPrefixOf, ih]

/-! ## C3: `parse_service_port` grammar -/

theorem parse_service_port_ok {name protocol portStr : List Char} {p : Int}
    (hn : ':' ∉ name) (hpr : ':' ∉ protocol) (hpo : ':' ∉ portStr)
    (hproto : protocol = "tcp".data ∨ protocol = "pty".data ∨
      protocol = "http".data)
    (hint : pyInt? portStr = some p) (hgt : 1024 < p)
    (h2000 : p ≠ 2000) (h2001 : p ≠ 2001) :
    parse_service_port (name ++ ':' :: (protocol ++ ':' :: portStr)) =
      .ok ⟨name, protocol, p, none⟩ := by
  have hsplit : splitOnChar ':' (name ++ ':' :: (protocol ++ ':' :: portStr)) =
      [name, protocol, portStr] := by
    rw [splitOnChar_append hn, splitOnChar_append hpr,
      splitOnChar_of_not_mem hpo]
  rw [parse_service_port, hsplit]
  simp only [if_pos hproto, hint]
  rw [if_neg (by omega), if_neg (by push_neg; exact ⟨h2000, h2001⟩)]

/-- C3: `parse_service_port` accepts an input exactly when it has the form
`name:protocol:port` with `protocol ∈ {tcp, pty, http}` and `port` an
integer greater than 1024 and different from 2000 and 2001; on acceptance
it returns `{name, protocol, container_port = port, host_port = None}`,
and on every non-conforming input it raises an error. -/
theorem parse_service_port_spec (s : List Char) :
    (∀ name protocol portStr p,
      s = name ++ ':' :: (protocol ++ ':' :: portStr) →
      ':' ∉ name → ':' ∉ protocol → ':' ∉ portStr →
      (protocol = "tcp".data ∨ protocol = "pty".data ∨
        protocol = "http".data) →
      pyInt? portStr = some p → 1024 < p → p ≠ 2000 → p ≠ 2001 →
      parse_service_port s = .ok ⟨name, protocol, p, none⟩)
    ∧ (exceptIsOk (parse_service_port s) = true →
      ∃ name protocol portStr p,
        s = name ++ ':' :: (protocol ++ ':' :: portStr) ∧
        ':' ∉ name ∧ ':' ∉ protocol ∧ ':' ∉ portStr ∧
        (protocol = "tcp".data ∨ protocol = "pty".data ∨
          protocol = "http".data) ∧
        pyInt? portStr = some p ∧ 1024 < p ∧ p ≠ 2000 ∧ p ≠ 2001 ∧
        parse_service_port s = .ok ⟨name, protocol, p, none⟩) := by
  constructor
  · intro name protocol portStr p hs hn hpr hpo hproto hint hgt h2000 h2001
    rw [hs]
    exact parse_service_port_ok hn hpr hpo hproto hint hgt h2000 h2001
  · intro hok
    rw [parse_service_port] at hok
    split at hok
    case _ name protocol portStr hsplit =>
      split at hok
      case isFalse => simp [exceptIsOk] at hok
      case isTrue hproto =>
        split at hok
        case h_1 => simp [exceptIsOk] at hok
        case h_2 p hint =>
          split at hok
          case isTrue => simp [exceptIsOk] at hok
          case isFalse hle =>
            split at hok
            case isTrue => simp [exceptIsOk] at hok
            case isFalse hres =>
              push_neg at hres
              have hjoin : s = name ++ ':' :: (protocol ++ ':' :: portStr) := by
                have := joinWithChar_splitOnChar ':' s
                rw [hsplit] at this
                simpa [joinWithChar] using this.symm
              refine ⟨name, protocol, portStr, p, hjoin,
                not_mem_of_mem_splitOnChar (by rw [hsplit]; simp),
                not_mem_of_mem_splitOnChar (by rw [hsplit]; simp),
                not_mem_of_mem_splitOnChar (by rw [hsplit]; simp),
                hproto, hint, by omega, hres.1, hres.2, ?_⟩
              rw [hjoin]
              exact parse_service_port_ok
                (not_mem_of_mem_splitOnChar (by rw [hsplit]; simp))
                (not_mem_of_mem_splitOnChar (by rw [hsplit]; simp))
                (not_mem_of_mem_splitOnChar (by rw [hsplit]; simp))
                hproto hint (by omega) hres.1 hres.2
    case _ => simp [exceptIsOk] at hok

/-- Witness for C3 at the concrete conforming input `jupyter:http:8080`. -/
theorem parse_service_port_spec_witness :
    parse_service_port "jupyter:http:8080".data =
      .ok ⟨"jupyter".data, "http".data, 8080, none⟩ :=
  (parse_service_port_spec "jupyter:http:8080".data).1
    "jupyter".data "http".data "8080".data 8080
    (by decide) (by decide) (by decide) (by decide)
    (by decide) (by decide) (by decide) (by decide) (by decide)

/-! ## C10: container-name round trip -/

/-- C10 counterexample: the container name `/kernel.img.abc` does not
start with `kernel.`, yet `get_kernel_id_from_container` returns
`some "abc"` rather than `None`, because the source first strips leading
`/` characters. -/
theorem get_kernel_id_slash_counterexample :
    get_kernel_id_from_container "/kernel.img.abc".data = some "abc".data ∧
    startsWith "kernel.".data "/kernel.img.abc".data = false := by
  decide

/-- C10 (amended): composing `kernel.<image>.<kernel-id>` with a dot-free
kernel-id and resolving it returns exactly the original kernel-id; and
every container name that, after stripping leading `/` characters, does
not start with `kernel.` resolves to `None`. -/
theorem get_kernel_id_round_trip :
    (∀ imageName kernelId : List Char, '.' ∉ kernelId →
      get_kernel_id_from_container (composeContainerName imageName kernelId) =
        some kernelId)
    ∧ (∀ vname : List Char,
      startsWith "kernel.".data (lstripChar '/' vname) = false →
      get_kernel_id_from_container vname = none) := by
  constructor
  · intro imageName kernelId hdot
    have hcomp : composeContainerName imageName kernelId =
        ("kernel.".data ++ imageName) ++ '.' :: kernelId := by
      simp [composeContainerName]
    have hlstrip : lstripChar '/' (composeContainerName imageName kernelId) =
        composeContainerName imageName kernelId := by
      apply lstripChar_of_head_ne
      decide
    rw [get_kernel_id_from_container]
    simp only [hlstrip]
    rw [hcomp]
    have hpre : startsWith "kernel.".data
        (("kernel.".data ++ imageName) ++ '.' :: kernelId) = true := by
      rw [startsWith]
      have : ("kernel.".data ++ imageName) ++ '.' :: kernelId =
          "kernel.".data ++ (imageName ++ '.' :: kernelId) := by simp
      rw [this]
      exact isPrefixOf_append _ _
    rw [if_pos hpre]
    rw [pyRsplit_getLastD hdot]
  · intro vname hns
    rw [get_kernel_id_from_container]
    simp only [hns]
    rfl

/-- Witness for C10's amended round trip at image `python:3.6` and
kernel-id `abc123`, and for the rejection half at `mycontainer`. -/
theorem get_kernel_id_round_trip_witness :
    get_kernel_id_from_container
        (composeContainerName "python:3.6".data "abc123".data) =
      some "abc123".data ∧
    get_kernel_id_from_container "mycontainer".data = none :=
  ⟨get_kernel_id_round_trip.1 "python:3.6".data "abc123".data
      (by decide),
    get_kernel_id_round_trip.2 "mycontainer".data (by decide)⟩

/-! ## C5: upload destinations escaping the work directory -/

/-- C5 (code bug): an upload whose filename traverses out of the kernel's
work directory is written outside it; `_accept_file` performs no
containment check because `resolve(strict=False)` never raises the
`ValueError` its `except` clause waits for.  With scratch root
`/var/cache/scratches` and kernel `k1`, uploading
`../../../etc/passwd` writes `/var/cache/etc/passwd`, which is not under
`/var/cache/scratches/k1/work`, and no error is raised. -/
theorem accept_file_escape_bug :
    accept_file ["var".data, "cache".data, "scratches".data] "k1".data
        "../../../etc/passwd".data =
      .ok ["var".data, "cache".data, "etc".data, "passwd".data] ∧
    (workDirOf ["var".data, "cache".data, "scratches".data]
        "k1".data).isPrefixOf
      ["var".data, "cache".data, "etc".data, "passwd".data] = false := by
  constructor
  · rfl
  · decide

/-! ## C6: download size limit -/

/-- C6 counterexample: an archive of exactly 1 MiB (1048576 bytes) is at
most 1 MiB, so by the claim its bytes should be returned, but the source
asserts `fsize < 1 * 1048576` and fails with `FILE_TOO_LARGE`. -/
theorem download_file_one_mib_counterexample :
    (List.replicate 1048576 (0 : Nat)).length ≤ 1048576 ∧
    download_file (some (List.replicate 1048576 (0 : Nat))) =
      .error .FILE_TOO_LARGE := by
  have hlen : (List.replicate 1048576 (0 : Nat)).length = 1048576 :=
    List.length_replicate _ _
  constructor
  · exact le_of_eq hlen
  · simp only [download_file, hlen]
    rw [if_neg (lt_irrefl 1048576)]

/-- C6 (amended): `_download_file` fails with `FILE_TOO_LARGE` exactly
when the fetched archive's size is at least 1 MiB; strictly smaller
archives are returned as bytes; a missing file is a distinct
`FILE_NOT_FOUND` error. -/
theorem download_file_size_spec (bytes : List Nat) :
    (download_file (some bytes) = .ok bytes ↔ bytes.length < 1048576) ∧
    (download_file (some bytes) = .error .FILE_TOO_LARGE ↔
      1048576 ≤ bytes.length) ∧
    download_file none = .error .FILE_NOT_FOUND := by
  refine ⟨?_, ?_, rfl⟩ <;> rw [download_file] <;> split <;> simp_all

/-! ## Lemmas about the dictionary helpers -/

theorem dictGet_dictPop_self [DecidableEq κ] (k : κ) (l : List (κ × α)) :
    dictGet k (dictPop k l) = none := by
  induction l with
  | nil => rfl
  | cons p rest ih =>
    by_cases hp : p.1 = k
    · rw [dictPop, if_pos hp]; exact ih
    · rw [dictPop, if_neg hp, dictGet, if_neg hp]; exact ih

theorem dictGet_dictPop_ne [DecidableEq κ] {k k2 : κ} (h : k2 ≠ k)
    (l : List (κ × α)) : dictGet k2 (dictPop k l) = dictGet k2 l := by
  induction l with
  | nil => rfl
  | cons p rest ih =>
    by_cases hp : p.1 = k
    · have hne : ¬(p.1 = k2) := fun he => h (he ▸ hp)
      rw [dictPop, if_pos hp, dictGet, if_neg hne, ih]
    · rw [dictPop, if_neg hp, dictGet, dictGet]
      by_cases hp2 : p.1 = k2
      · rw [if_pos hp2, if_pos hp2]
      · rw [if_neg hp2, if_neg hp2, ih]

theorem dictGet_dictSet_self [DecidableEq κ] (k : κ) (v : α)
    (l : List (κ × α)) : dictGet k (dictSet k v l) = some v := by
  induction l with
  | nil => simp [dictSet, dictGet]
  | cons p rest ih =>
    by_cases h : p.1 = k <;> simp [dictSet, dictGet, h, ih]

theorem dictGet_dictSet_ne [DecidableEq κ] {k k2 : κ} (h : k2 ≠ k) (v : α)
    (l : List (κ × α)) : dictGet k2 (dictSet k v l) = dictGet k2 l := by
  induction l with
  | nil =>
    show dictGet k2 [(k, v)] = none
    rw [dictGet, if_neg (fun he : k = k2 => h he.symm)]
    rfl
  | cons p rest ih =>
    by_cases hp : p.1 = k
    · have hne : ¬(p.1 = k2) := fun he => h (he ▸ hp)
      calc dictGet k2 (dictSet k v (p :: rest))
          = dictGet k2 ((k, v) :: rest) := by rw [dictSet, if_pos hp]
        _ = dictGet k2 rest := by
            rw [dictGet, if_neg (fun he : k = k2 => h he.symm)]
        _ = dictGet k2 (p :: rest) := by rw [dictGet, if_neg hne]
    · rw [dictSet, if_neg hp, dictGet, dictGet]
      by_cases hp2 : p.1 = k2
      · rw [if_pos hp2, if_pos hp2]
      · rw [if_neg hp2, if_neg hp2, ih]

theorem dictPop_dictSet [DecidableEq κ] {k : κ} {l : List (κ × α)}
    (h : dictGet k l = none) (v : α) :
    dictPop k (dictSet k v l) = l := by
  induction l with
  | nil => simp [dictSet, dictPop]
  | cons p rest ih =>
    by_cases hp : p.1 = k
    · rw [dictGet, if_pos hp] at h
      exact absurd h (by simp)
    · rw [dictGet, if_neg hp] at h
      rw [dictSet, if_neg hp, dictPop, if_neg hp, ih h]

theorem dictSet_eq_self [DecidableEq κ] {k : κ} {v : α} {l : List (κ × α)}
    (h : dictGet k l = some v) : dictSet k v l = l := by
  induction l with
  | nil => simp [dictGet] at h
  | cons p rest ih =>
    by_cases hp : p.1 = k
    · rw [dictGet, if_pos hp] at h
      have hv : p.2 = v := Option.some_inj.1 h
      have hpe : (k, v) = p := by rw [← hp, ← hv]
      rw [dictSet, if_pos hp, hpe]
    · rw [dictGet, if_neg hp] at h
      rw [dictSet, if_neg hp, ih h]

theorem dictSet_dictSet [DecidableEq κ] (k : κ) (v w : α)
    (l : List (κ × α)) : dictSet k w (dictSet k v l) = dictSet k w l := by
  induction l with
  | nil => simp [dictSet]
  | cons p rest ih =>
    by_cases hp : p.1 = k <;> simp [dictSet, hp, ih]

theorem dictGet_none_not_mem_keys [DecidableEq κ] {k : κ} {l : List (κ × α)}
    (h : dictGet k l = none) : k ∉ l.map Prod.fst := by
  induction l with
  | nil => simp
  | cons p rest ih =>
    rw [dictGet] at h
    by_cases hp : p.1 = k
    · rw [if_pos hp] at h; exact absurd h (by simp)
    · rw [if_neg hp] at h
      simp only [List.map_cons, List.mem_cons, not_or]
      exact ⟨fun he => hp he.symm, ih h⟩

/-! ## C7: restart timeout raises AttributeError instead of cleaning up -/

/-- C7 (code bug): when the 30-second wait for `destroy_event` times out,
the source removes the tracker and then evaluates
`self._clean_kernel(kernel_id)` — but `AgentRPCServer` has no attribute
`_clean_kernel` (the method is named `clean_kernel`), so an
`AttributeError` is raised before any cleanup future is created: no
best-effort cleanup is fired (the returned flag is `false`, and the pool,
registry and scratch state are untouched), and the failure surfaced is
the `AttributeError`, not `RESTART_TIMEOUT`. -/
theorem restart_timeout_attribute_error (k : List Char)
    (cfg : KernelCreateConfig) (env : DockerEnv) (now : Nat)
    (s : AgentState) :
    (restart_kernel k cfg env now false s).1.1 = .error .ATTRIBUTE_ERROR ∧
    (restart_kernel k cfg env now false s).2 = false ∧
    dictGet k
      (restart_kernel k cfg env now false s).1.2.restarting_kernels =
      none ∧
    (restart_kernel k cfg env now false s).1.2.port_pool = s.port_pool ∧
    (restart_kernel k cfg env now false s).1.2.container_registry =
      s.container_registry ∧
    (restart_kernel k cfg env now false s).1.2.scratch = s.scratch := by
  refine ⟨rfl, rfl, ?_, rfl, rfl, rfl⟩
  simp [restart_kernel, dictGet_dictPop_self]

/-! ## C8: docker-event de-duplication -/

/-- C8: consuming the daemon's event stream, an event whose
`(Type, Action, Actor.ID)` footprint equals its predecessor's is dropped,
so duplicating an event in place leaves the published `kernel_terminated`
sequence unchanged; in particular `die(C1), die(C1), die(C2)` publishes
exactly two terminations, one for each container's kernel. -/
theorem monitor_dedup :
    (∀ (last : Option (List Char × List Char × List Char))
      (pre : List DockerEvent) (e : DockerEvent) (post : List DockerEvent),
      monitorRun last (pre ++ e :: e :: post) =
        monitorRun last (pre ++ e :: post)) ∧
    monitorRun none
      [⟨"container".data, "die".data, "C1".data, "kernel.img.k1".data⟩,
        ⟨"container".data, "die".data, "C1".data, "kernel.img.k1".data⟩,
        ⟨"container".data, "die".data, "C2".data, "kernel.img.k2".data⟩] =
      ["k1".data, "k2".data] := by
  constructor
  · intro last pre e post
    induction pre generalizing last with
    | nil =>
      by_cases h : last = some (footprint e) <;>
        simp [monitorRun, monitorStep, h]
    | cons ev pre ih =>
      simp only [List.cons_append, monitorRun, List.append_eq]
      rw [ih]
  · decide

/-! ## C9: `last_used` touching at RPC entry -/

theorem dictGet_update_last_used {registry : List (List Char × KernelRecord)}
    {k : List Char} {record : KernelRecord}
    (h : dictGet k registry = some record) (now : Nat) :
    dictGet k (update_last_used registry k now) =
      some {record with last_used := now} := by
  induction registry with
  | nil => simp [dictGet] at h
  | cons p rest ih =>
    rw [dictGet] at h
    by_cases hp : p.1 = k
    · rw [if_pos hp] at h
      have hv : p.2 = record := Option.some_inj.1 h
      rw [update_last_used, if_pos hp, dictGet, if_pos hp, hv]
    · rw [if_neg hp] at h
      rw [update_last_used, if_neg hp, dictGet, if_neg hp]
      exact ih h

/-- C9: every user-facing kernel-addressed RPC operation except `ping`
(`ping_kernel`, `create_kernel`, `destroy_kernel`, `interrupt_kernel`,
`get_completions`, `get_logs`, `restart_kernel`, `execute`,
`start_service`, `upload_file`, `download_file`, `list_files`) touches
the kernel's `last_used` timestamp at entry, before performing its work,
whenever the kernel is present in the registry, leaving the rest of the
record unchanged. -/
theorem rpc_entry_touches_last_used (op : RpcOp)
    (registry : List (List Char × KernelRecord)) (k : List Char)
    (now : Nat) (record : KernelRecord)
    (h : dictGet k registry = some record) :
    dictGet k (rpcEntryTouch op registry k now) =
      some {record with last_used := now} := by
  cases op <;> exact dictGet_update_last_used h now

/-- Witness for C9: the `upload_file` entry phase stamps `last_used` on a
concrete one-kernel registry. -/
theorem rpc_entry_touches_last_used_witness :
    dictGet "k1".data
      (rpcEntryTouch .uploadFile [("k1".data, sampleRecord)] "k1".data 42) =
      some {sampleRecord with last_used := 42} :=
  rpc_entry_touches_last_used .uploadFile [("k1".data, sampleRecord)]
    "k1".data 42 sampleRecord (by decide)

/-! ## Lemmas about the CPU allocation map -/

theorem length_insertLeB (le : α → α → Bool) (x : α) (l : List α) :
    (insertLeB le x l).length = l.length + 1 := by
  induction l with
  | nil => rfl
  | cons y ys ih =>
    rw [insertLeB]
    split
    · simp
    · simp [ih]

theorem length_sortLeB (le : α → α → Bool) (l : List α) :
    (sortLeB le l).length = l.length := by
  induction l with
  | nil => rfl
  | cons x xs ih =>
    rw [sortLeB, length_insertLeB, ih]
    rfl

theorem mem_insertLeB {le : α → α → Bool} {x y : α} {l : List α} :
    y ∈ insertLeB le x l ↔ y = x ∨ y ∈ l := by
  induction l with
  | nil => simp [insertLeB]
  | cons z zs ih =>
    rw [insertLeB]
    split
    · simp
    · simp only [List.mem_cons, ih]
      tauto

theorem mem_sortLeB {le : α → α → Bool} {y : α} {l : List α} :
    y ∈ sortLeB le l ↔ y ∈ l := by
  induction l with
  | nil => simp [sortLeB]
  | cons x xs ih =>
    rw [sortLeB, mem_insertLeB, ih]
    simp

theorem mem_freeCpus_not_used {m : CPUAllocMap} {c : Nat}
    (h : c ∈ m.freeCpus) : c ∉ m.used := by
  have := List.mem_filter.1 h
  simpa using this.2

theorem CPUAllocMap.alloc_ok {m : CPUAllocMap} {n node : Nat}
    {cs : List Nat} {m' : CPUAllocMap}
    (h : m.alloc n = .ok ((node, cs), m')) :
    cs.length = n ∧ (∀ c ∈ cs, c ∈ m.freeCpus) ∧
      m' = ⟨m.topo, m.used ++ cs⟩ := by
  rw [CPUAllocMap.alloc] at h
  split at h
  · exact absurd h (by simp)
  · next hlt =>
    rw [Except.ok.injEq, Prod.mk.injEq, Prod.mk.injEq] at h
    obtain ⟨⟨_, hcs⟩, hm'⟩ := h
    subst hcs
    refine ⟨?_, ?_, hm'.symm⟩
    · rw [List.length_take, CPUAllocMap.orderedFree, length_sortLeB]
      omega
    · intro c hc
      exact mem_sortLeB.1 (List.mem_of_mem_take hc)

theorem CPUAllocMap.free_alloc {m : CPUAllocMap} {n node : Nat}
    {cs : List Nat} {m' : CPUAllocMap}
    (h : m.alloc n = .ok ((node, cs), m')) :
    m'.free cs = m := by
  obtain ⟨-, hmem, hm'⟩ := CPUAllocMap.alloc_ok h
  rw [hm', CPUAllocMap.free]
  have h1 : m.used.filter (fun c => decide (c ∉ cs)) = m.used := by
    rw [List.filter_eq_self]
    intro u hu
    simp only [decide_eq_true_eq]
    intro hucs
    exact mem_freeCpus_not_used (hmem u hucs) hu
  have h2 : cs.filter (fun c => decide (c ∉ cs)) = [] := by
    rw [List.filter_eq_nil_iff]
    intro c hc
    simp [hc]
  show CPUAllocMap.mk m.topo ((m.used ++ cs).filter (fun c => decide (c ∉ cs))) = m
  rw [List.filter_append, h1, h2, List.append_nil]

theorem CPUAllocMap.alloc_of_le {m : CPUAllocMap} {n : Nat}
    (h : n ≤ m.freeCpus.length) :
    ∃ node cs m', m.alloc n = .ok ((node, cs), m') ∧ cs.length = n := by
  rw [CPUAllocMap.alloc, if_neg (by omega)]
  refine ⟨_, _, _, rfl, ?_⟩
  rw [List.length_take, CPUAllocMap.orderedFree, length_sortLeB]
  omega

/-! ## C4: CPU under-provisioning takes the minimum -/

/-- C4: when `create_kernel` runs without a caller-pinned `cpu_set` and
not restarting, the CPU step allocates exactly
`min(container_cpu_map.num_cores, int(cpu_slot))` cores whenever that
many CPUs are free; in particular, on an agent whose CPU mask has the two
CPUs {0, 1}, a request with `cpu_slot "4"` succeeds and `_create_kernel`
publishes a record with exactly 2 allocated cores rather than 4 or
failing. -/
theorem create_cpu_min_alloc :
    (∀ (m : CPUAllocMap) (cpu_slot : ℚ),
      min m.num_cores (pyIntOfRat cpu_slot).toNat ≤ m.freeCpus.length →
      ∃ node cs m',
        realizeCpuShare m none cpu_slot = .ok ((node, cs), m') ∧
        cs.length = min m.num_cores (pyIntOfRat cpu_slot).toNat)
    ∧ (dictGet "k1".data ((_create_kernel "k1".data sampleCfg4 false
        (normalEnv "c1".data) 5 (AgentState.initial ⟨30000, 30005, 600⟩
          [(0, 0), (1, 0)] [])).2.container_registry)).map
        (fun r => r.resource_spec.cpu_set.length) = some 2 := by
  constructor
  · intro m cpu_slot h
    rw [realizeCpuShare]
    exact CPUAllocMap.alloc_of_le h
  · decide

/-- Witness for C4's general minimum statement on the fresh two-CPU map
and `cpu_slot 4`. -/
theorem create_cpu_min_alloc_witness :
    ∃ node cs m',
      realizeCpuShare (CPUAllocMap.init [(0, 0), (1, 0)]) none 4 =
        .ok ((node, cs), m') ∧
      cs.length = min (CPUAllocMap.init [(0, 0), (1, 0)]).num_cores
        (pyIntOfRat 4).toNat :=
  create_cpu_min_alloc.1 (CPUAllocMap.init [(0, 0), (1, 0)]) 4 (by decide)

/-! ## Lemmas about the accelerator map, scratch persistence, port drawing -/

theorem map_sub_add_cancel (c : List (Nat × ℚ)) (l : List (Nat × ℚ)) :
    (l.map (fun df => (df.1, df.2 - lookupShare df.1 c))).map
      (fun df => (df.1, df.2 + lookupShare df.1 c)) = l := by
  induction l with
  | nil => rfl
  | cons df rest ih => simp [ih]

theorem AcceleratorAllocMap.free_restores {m : AcceleratorAllocMap} {total : ℚ}
    {taken : List (Nat × ℚ)} {m' : AcceleratorAllocMap}
    (h : m.alloc total = .ok (taken, m')) : m'.free taken = m := by
  rw [AcceleratorAllocMap.alloc] at h
  split at h
  · exact absurd h (by simp)
  · rw [Except.ok.injEq, Prod.mk.injEq] at h
    obtain ⟨ht, hm'⟩ := h
    subst ht
    subst hm'
    show AcceleratorAllocMap.mk
      ((m.devices.map (fun df =>
        (df.1, df.2 - lookupShare df.1 (takeShares total m.greedyOrder)))).map
          (fun df =>
            (df.1, df.2 + lookupShare df.1 (takeShares total m.greedyOrder)))) =
      m
    rw [map_sub_add_cancel]

theorem dictSet_cancel_through [DecidableEq κ] {a b : κ} (h : a ≠ b)
    {l : List (κ × α)} {va : α} (hget : dictGet a l = some va) (w x : α) :
    dictSet a va (dictSet b w (dictSet a x l)) = dictSet b w l := by
  induction l with
  | nil => simp [dictGet] at hget
  | cons p rest ih =>
    rw [dictGet] at hget
    by_cases hpa : p.1 = a
    · rw [if_pos hpa] at hget
      have hpb : ¬(p.1 = b) := fun he => h ((hpa ▸ he : a = b))
      rw [dictSet, if_pos hpa, dictSet, if_neg (fun he : a = b => h he),
        dictSet, if_pos rfl, dictSet, if_neg hpb, hpa,
        Option.some_inj.1 hget]
    · rw [if_neg hpa] at hget
      by_cases hpb : p.1 = b
      · rw [dictSet, if_neg hpa, dictSet, if_pos hpb, dictSet,
          if_neg (fun he : b = a => h he.symm), dictSet_dictSet,
          dictSet_eq_self hget, dictSet, if_pos hpb]
      · rw [dictSet, if_neg hpa, dictSet, if_neg hpb, dictSet, if_neg hpa,
          ih hget, dictSet, if_neg hpb]

theorem persistScratch_fresh_ok {k : List Char} {spec : KernelResourceSpec}
    {s s2 : AgentState}
    (h : persistScratch k spec false s = (.ok (), s2)) :
    dictGet k s.scratch = none ∧
      s2 = {s with scratch := dictSet k spec s.scratch} := by
  rw [persistScratch] at h
  simp only [Bool.false_eq_true, if_false] at h
  split at h
  · exact absurd h (by simp)
  · next hc =>
    rw [Prod.mk.injEq] at h
    refine ⟨?_, h.2.symm⟩
    rw [dictContains] at hc
    simpa using hc

theorem drawPorts_some {n : Nat} {pool : Finset Nat} {ps : List Nat}
    {pool' : Finset Nat} (h : drawPorts n pool = some (ps, pool')) :
    ps.length = n ∧ ps.Nodup ∧ ps.toFinset ⊆ pool ∧
      pool' = pool \ ps.toFinset := by
  induction n generalizing pool ps pool' with
  | zero =>
    rw [drawPorts, Option.some_inj, Prod.mk.injEq] at h
    obtain ⟨hps, hp⟩ := h
    subst hps
    simp [hp.symm]
  | succ n ih =>
    rw [drawPorts] at h
    split at h
    · next hne =>
      rcases hrec : drawPorts n (pool.erase (pool.min' hne)) with
          _ | ⟨ps0, pool0⟩ <;> rw [hrec] at h
      · exact absurd h (by simp)
      · rw [Option.some_inj, Prod.mk.injEq] at h
        obtain ⟨hps, hp0⟩ := h
        obtain ⟨hlen, hnd, hsub, hpool⟩ := ih hrec
        subst hps hp0
        have hmin : pool.min' hne ∈ pool := pool.min'_mem hne
        have hnotin : pool.min' hne ∉ ps0 := by
          intro hmem
          have := hsub (List.mem_toFinset.2 hmem)
          exact (Finset.not_mem_erase _ _) this
        refine ⟨by simp [hlen], List.nodup_cons.2 ⟨hnotin, hnd⟩, ?_, ?_⟩
        · rw [List.toFinset_cons]
          intro q hq
          rcases Finset.mem_insert.1 hq with hq | hq
          · exact hq ▸ hmin
          · exact Finset.erase_subset _ _ (hsub hq)
        · rw [hpool, List.toFinset_cons, Finset.erase_eq,
            sdiff_sdiff_left, Finset.insert_eq]
          rfl
    · exact absurd h (by simp)

theorem drawPorts_of_le {n : Nat} {pool : Finset Nat} (h : n ≤ pool.card) :
    ∃ ps pool', drawPorts n pool = some (ps, pool') := by
  induction n generalizing pool with
  | zero => exact ⟨[], pool, rfl⟩
  | succ n ih =>
    have hne : pool.Nonempty := Finset.card_pos.1 (by omega)
    have hcard : n ≤ (pool.erase (pool.min' hne)).card := by
      rw [Finset.card_erase_of_mem (pool.min'_mem hne)]
      omega
    obtain ⟨ps0, pool0, hrec⟩ := ih hcard
    refine ⟨pool.min' hne :: ps0, pool0, ?_⟩
    rw [drawPorts, dif_pos hne, hrec]

theorem AgentState.fields_eq {a b : AgentState} (h1 : a.config = b.config)
    (h2 : a.port_pool = b.port_pool)
    (h3 : a.container_cpu_map = b.container_cpu_map)
    (h4 : a.accelerators = b.accelerators)
    (h5 : a.container_registry = b.container_registry)
    (h6 : a.restarting_kernels = b.restarting_kernels)
    (h7 : a.scratch = b.scratch) : a = b := by
  cases a
  cases b
  simp_all

/-! ## Inversion of the planning phase (used for C1's rollback) -/

theorem freeAccelShares_one {c : List Char} {t : List (Nat × ℚ)}
    {A : List (List Char × AcceleratorAllocMap)} {am : AcceleratorAllocMap}
    (hget : dictGet c A = some am) :
    freeAccelShares [(c, t)] A = dictSet c (am.free t) A := by
  rw [freeAccelShares, List.foldl_cons, List.foldl_nil, hget]

theorem planResources_fresh_ok {k : List Char} {cfg : KernelCreateConfig}
    {s s1 : AgentState} {spec : KernelResourceSpec}
    (hpin : cfg.cpu_set = none)
    (h : planResources k cfg false s = (.ok spec, s1)) :
    s1.container_cpu_map.free spec.cpu_set = s.container_cpu_map ∧
    freeAccelShares spec.accelShares s1.accelerators = s.accelerators ∧
    s1.config = s.config ∧ s1.port_pool = s.port_pool ∧
    s1.container_registry = s.container_registry ∧
    s1.restarting_kernels = s.restarting_kernels ∧
    s1.scratch = s.scratch := by
  rw [planResources, hpin, if_neg (by simp)] at h
  split at h
  · simp at h
  next node cs cpuMap' halloc =>
    have hfree : cpuMap'.free cs = s.container_cpu_map := by
      rw [realizeCpuShare] at halloc
      exact CPUAllocMap.free_alloc halloc
    have hne : ("cuda".data : List Char) ≠ "tpu".data := by decide
    split at h
    · -- gpu_slot > 0
      split at h
      · -- tpu_slot > 0 as well
        dsimp only [] at h
        split at h
        · simp at h
        next accl hcuda =>
          split at h
          · simp at h
          next cudaShares accl' halloc2 =>
            have hC : accl'.free cudaShares = accl :=
              AcceleratorAllocMap.free_restores halloc2
            split at h
            · simp at h
            next acclT htpu =>
              split at h
              · simp at h
              next tpuShares acclT' halloc3 =>
                have hT : acclT'.free tpuShares = acclT :=
                  AcceleratorAllocMap.free_restores halloc3
                rw [Prod.mk.injEq, Except.ok.injEq] at h
                obtain ⟨hspec, hs1⟩ := h
                subst hspec
                subst hs1
                refine ⟨hfree, ?_, rfl, rfl, rfl, rfl, rfl⟩
                show freeAccelShares
                  [("cuda".data, cudaShares), ("tpu".data, tpuShares)]
                  (dictSet "tpu".data acclT'
                    (dictSet "cuda".data accl' s.accelerators)) =
                  s.accelerators
                rw [freeAccelShares, List.foldl_cons, List.foldl_cons,
                  List.foldl_nil]
                dsimp only []
                rw [dictGet_dictSet_ne hne, dictGet_dictSet_self]
                dsimp only []
                rw [hC, dictGet_dictSet_ne (fun he => hne he.symm),
                  dictGet_dictSet_self]
                dsimp only []
                rw [hT, dictSet_cancel_through (fun he => hne he.symm) htpu,
                  dictSet_dictSet, dictSet_eq_self hcuda]
      · -- tpu_slot ≤ 0
        dsimp only [] at h
        split at h
        · simp at h
        next accl hcuda =>
          split at h
          · simp at h
          next cudaShares accl' halloc2 =>
            have hC : accl'.free cudaShares = accl :=
              AcceleratorAllocMap.free_restores halloc2
            rw [Prod.mk.injEq, Except.ok.injEq] at h
            obtain ⟨hspec, hs1⟩ := h
            subst hspec
            subst hs1
            refine ⟨hfree, ?_, rfl, rfl, rfl, rfl, rfl⟩
            show freeAccelShares [("cuda".data, cudaShares)]
              (dictSet "cuda".data accl' s.accelerators) = s.accelerators
            rw [freeAccelShares_one (dictGet_dictSet_self _ _ _), hC,
              dictSet_dictSet, dictSet_eq_self hcuda]
    · -- gpu_slot ≤ 0
      split at h
      · -- tpu_slot > 0
        dsimp only [] at h
        split at h
        · simp at h
        next acclT htpu =>
          split at h
          · simp at h
          next tpuShares acclT' halloc3 =>
            have hT : acclT'.free tpuShares = acclT :=
              AcceleratorAllocMap.free_restores halloc3
            rw [Prod.mk.injEq, Except.ok.injEq] at h
            obtain ⟨hspec, hs1⟩ := h
            subst hspec
            subst hs1
            refine ⟨hfree, ?_, rfl, rfl, rfl, rfl, rfl⟩
            show freeAccelShares [("tpu".data, tpuShares)]
              (dictSet "tpu".data acclT' s.accelerators) = s.accelerators
            rw [freeAccelShares_one (dictGet_dictSet_self _ _ _), hT,
              dictSet_dictSet, dictSet_eq_self htpu]
      · -- neither accelerator requested
        dsimp only [] at h
        rw [Prod.mk.injEq, Except.ok.injEq] at h
        obtain ⟨hspec, hs1⟩ := h
        subst hspec
        subst hs1
        exact ⟨hfree, rfl, rfl, rfl, rfl, rfl, rfl⟩

/-! ## C1: rollback of a failed create -/

/-- C1 counterexample: with a single free host port, `_create_kernel`
fails at the port-availability check (line 942) — a point after the CPU
set has been reserved and the scratch directory written, and before the
registry publish — and the failure propagates with no rollback: the CPU
allocation (`used = [0, 1]`) and the scratch directory survive.  The
rollback block only guards the container create/start step. -/
theorem create_fail_leaks_before_guard :
    (_create_kernel "k1".data sampleCfg false (normalEnv "c1".data) 5
      onePortState).1 = .error .INSUFFICIENT_PORTS ∧
    (_create_kernel "k1".data sampleCfg false (normalEnv "c1".data) 5
      onePortState).2.container_cpu_map.used = [0, 1] ∧
    dictContains "k1".data
      (_create_kernel "k1".data sampleCfg false (normalEnv "c1".data) 5
        onePortState).2.scratch = true ∧
    dictGet "k1".data
      (_create_kernel "k1".data sampleCfg false (normalEnv "c1".data) 5
        onePortState).2.container_registry = none := by
  decide

/-- C1 (amended): if `_create_kernel` (fresh create, no caller-pinned
`cpu_set`) fails during the guarded container create/start step — on an
input on which the pipeline otherwise succeeds — then every allocation is
undone: the resulting agent state (scratch directories, port pool, CPU
map, accelerator maps, registry) is exactly the pre-call state. -/
theorem create_rollback_guarded (k : List Char) (cfg : KernelCreateConfig)
    (cid : List Char) (now : Nat) (s : AgentState) (env : DockerEnv)
    (hpin : cfg.cpu_set = none)
    (hfail : env.createFails = true ∨ env.startFails = true)
    (hok : exceptIsOk
      (_create_kernel k cfg false (normalEnv cid) now s).1 = true) :
    ∃ e, _create_kernel k cfg false env now s = (.error e, s) := by
  rw [_create_kernel] at hok ⊢
  rcases hplan : planResources k cfg false s with ⟨e | spec, s1⟩ <;>
    simp only [hplan] at hok ⊢
  · simp [exceptIsOk] at hok
  obtain ⟨hcpu, haccel, hcfg, hpool, hreg, htr, hscr⟩ :=
    planResources_fresh_ok hpin hplan
  rcases hper : persistScratch k spec false s1 with ⟨e2 | u, s2⟩ <;>
    simp only [hper] at hok ⊢
  · simp [exceptIsOk] at hok
  cases u
  obtain ⟨hknone, hs2⟩ := persistScratch_fresh_ok hper
  rcases hexp : exposedPortsOf cfg.lang with e3 | ⟨exposed, sps⟩ <;>
    simp only [hexp] at hok ⊢
  · simp [exceptIsOk] at hok
  by_cases hcard : s2.port_pool.card < exposed.length
  · rw [if_pos hcard] at hok
    simp [exceptIsOk] at hok
  rw [if_neg hcard] at hok ⊢
  rcases hdraw : drawPorts exposed.length s2.port_pool with _ | ⟨hps, pool'⟩ <;>
    simp only [hdraw] at hok ⊢
  · simp [exceptIsOk] at hok
  obtain ⟨hlen, hnd, hsub, hpool'⟩ := drawPorts_some hdraw
  have hrestore :
      rollbackCreate k spec hps {s2 with port_pool := pool'} = s := by
    apply AgentState.fields_eq
    · show s2.config = s.config
      rw [hs2]
      exact hcfg
    · show pool' ∪ hps.toFinset = s.port_pool
      calc pool' ∪ hps.toFinset = s2.port_pool := by
            rw [hpool']
            exact Finset.sdiff_union_of_subset hsub
        _ = s.port_pool := by rw [hs2]; exact hpool
    · show s2.container_cpu_map.free spec.cpu_set = s.container_cpu_map
      rw [hs2]
      exact hcpu
    · show freeAccelShares spec.accelShares s2.accelerators = s.accelerators
      rw [hs2]
      exact haccel
    · show s2.container_registry = s.container_registry
      rw [hs2]
      exact hreg
    · show s2.restarting_kernels = s.restarting_kernels
      rw [hs2]
      exact htr
    · show dictPop k s2.scratch = s.scratch
      rw [hs2]
      show dictPop k (dictSet k spec s1.scratch) = s.scratch
      rw [dictPop_dictSet hknone]
      exact hscr
  by_cases hc : env.createFails = true
  · rw [if_pos hc]
    exact ⟨.CONTAINER_CREATE_FAILED, by rw [hrestore]⟩
  · rw [if_neg hc, if_pos (hfail.resolve_left hc)]
    exact ⟨.CONTAINER_START_FAILED, by rw [hrestore]⟩

/-- Witness for C1's amended rollback: on the fresh six-port agent the
normal create succeeds, and the same request under a failing
`container.start` returns an error with the state fully restored. -/
theorem create_rollback_guarded_witness :
    ∃ e, _create_kernel "k1".data sampleCfg false
      ⟨false, true, "c1".data⟩ 5 sixPortState = (.error e, sixPortState) :=
  create_rollback_guarded "k1".data sampleCfg "c1".data 5 sixPortState
    ⟨false, true, "c1".data⟩ (by decide) (Or.inr (by decide)) (by decide)

/-! ## Registry decomposition and port-accounting lemmas (for C2) -/

theorem regPorts_cons (kv : List Char × KernelRecord)
    (l : List (List Char × KernelRecord)) :
    regPorts (kv :: l) = kv.2.host_ports.toFinset ∪ regPorts l := rfl

theorem regPorts_append (l1 l2 : List (List Char × KernelRecord)) :
    regPorts (l1 ++ l2) = regPorts l1 ∪ regPorts l2 := by
  induction l1 with
  | nil => simp [regPorts]
  | cons kv rest ih =>
    rw [List.cons_append, regPorts_cons, regPorts_cons, ih,
      Finset.union_assoc]

theorem dictGet_some_split [DecidableEq κ] {k : κ} {v : α}
    {l : List (κ × α)} (h : dictGet k l = some v) :
    ∃ l1 l2, l = l1 ++ (k, v) :: l2 ∧ ∀ p ∈ l1, p.1 ≠ k := by
  induction l with
  | nil => simp [dictGet] at h
  | cons p rest ih =>
    rw [dictGet] at h
    by_cases hp : p.1 = k
    · rw [if_pos hp] at h
      have hv : p.2 = v := Option.some_inj.1 h
      refine ⟨[], rest, ?_, by simp⟩
      have hpe : (k, v) = p := by rw [← hp, ← hv]
      rw [List.nil_append, hpe]
    · rw [if_neg hp] at h
      obtain ⟨l1, l2, he, hne⟩ := ih h
      refine ⟨p :: l1, l2, by rw [List.cons_append, he], ?_⟩
      intro q hq
      rcases List.mem_cons.1 hq with hq | hq
      · exact hq ▸ hp
      · exact hne q hq

theorem dictSet_split [DecidableEq κ] {k : κ} {l1 : List (κ × α)}
    (hne : ∀ p ∈ l1, p.1 ≠ k) (v w : α) (l2 : List (κ × α)) :
    dictSet k w (l1 ++ (k, v) :: l2) = l1 ++ (k, w) :: l2 := by
  induction l1 with
  | nil => simp [dictSet]
  | cons p rest ih =>
    rw [List.cons_append, dictSet,
      if_neg (hne p (List.mem_cons_self p rest)),
      ih (fun q hq => hne q (List.mem_cons_of_mem p hq)), List.cons_append]

theorem dictPop_of_not_mem [DecidableEq κ] {k : κ} {l : List (κ × α)}
    (h : ∀ p ∈ l, p.1 ≠ k) : dictPop k l = l := by
  induction l with
  | nil => rfl
  | cons p rest ih =>
    rw [dictPop, if_neg (h p (List.mem_cons_self p rest)),
      ih (fun q hq => h q (List.mem_cons_of_mem p hq))]

theorem dictPop_split [DecidableEq κ] {k : κ} {l1 l2 : List (κ × α)}
    (h1 : ∀ p ∈ l1, p.1 ≠ k) (h2 : ∀ p ∈ l2, p.1 ≠ k) (v : α) :
    dictPop k (l1 ++ (k, v) :: l2) = l1 ++ l2 := by
  induction l1 with
  | nil =>
    rw [List.nil_append, dictPop, if_pos rfl, dictPop_of_not_mem h2,
      List.nil_append]
  | cons p rest ih =>
    rw [List.cons_append, dictPop,
      if_neg (h1 p (List.mem_cons_self p rest)),
      ih (fun q hq => h1 q (List.mem_cons_of_mem p hq)), List.cons_append]

theorem dictSet_append_of_get_none [DecidableEq κ] {k : κ}
    {l : List (κ × α)} (h : dictGet k l = none) (v : α) :
    dictSet k v l = l ++ [(k, v)] := by
  induction l with
  | nil => rfl
  | cons p rest ih =>
    rw [dictGet] at h
    by_cases hp : p.1 = k
    · rw [if_pos hp] at h
      exact absurd h (by simp)
    · rw [if_neg hp] at h
      rw [dictSet, if_neg hp, ih h, List.cons_append]

theorem keys_nodup_split [DecidableEq κ] {l1 l2 : List (κ × α)} {k : κ}
    {v : α} (hnd : ((l1 ++ (k, v) :: l2).map Prod.fst).Nodup) :
    (∀ p ∈ l1, p.1 ≠ k) ∧ (∀ p ∈ l2, p.1 ≠ k) := by
  rw [List.map_append, List.map_cons, List.nodup_append] at hnd
  obtain ⟨h1, h2, hdisj⟩ := hnd
  constructor
  · intro p hp hpk
    have hm : p.1 ∈ l1.map Prod.fst := List.mem_map_of_mem Prod.fst hp
    rw [hpk] at hm
    exact hdisj hm (List.mem_cons_self k _)
  · intro p hp hpk
    have hm : p.1 ∈ l2.map Prod.fst := List.mem_map_of_mem Prod.fst hp
    rw [hpk] at hm
    exact (List.nodup_cons.1 h2).1 hm

theorem regPorts_subset_of_get {k : List Char} {info : KernelRecord}
    {l : List (List Char × KernelRecord)} (h : dictGet k l = some info) :
    info.host_ports.toFinset ⊆ regPorts l := by
  induction l with
  | nil => simp [dictGet] at h
  | cons p rest ih =>
    rw [dictGet] at h
    rw [regPorts_cons]
    by_cases hp : p.1 = k
    · rw [if_pos hp] at h
      rw [← Option.some_inj.1 h]
      exact Finset.subset_union_left
    · rw [if_neg hp] at h
      exact (ih h).trans Finset.subset_union_right

theorem inter_empty_of_subset {A B C : Finset Nat} (hAB : A ⊆ B)
    (h : B ∩ C = ∅) : A ∩ C = ∅ := by
  rw [Finset.eq_empty_iff_forall_not_mem] at h ⊢
  intro x hx
  rw [Finset.mem_inter] at hx
  exact h x (Finset.mem_inter.2 ⟨hAB hx.1, hx.2⟩)

theorem inter_regPorts_empty {P : Finset Nat}
    {l : List (List Char × KernelRecord)}
    (h : ∀ kv ∈ l, P ∩ kv.2.host_ports.toFinset = ∅) :
    P ∩ regPorts l = ∅ := by
  induction l with
  | nil => simp [regPorts]
  | cons kv rest ih =>
    rw [regPorts_cons, Finset.inter_union_distrib_left,
      h kv (List.mem_cons_self kv rest),
      ih (fun q hq => h q (List.mem_cons_of_mem kv hq)),
      Finset.union_empty]

/-! ## Effect lemmas for `_create_kernel` (for C2) -/

theorem planResources_fresh_frame {k : List Char} {cfg : KernelCreateConfig}
    {s s1 : AgentState} {pr : Except AgentErr KernelResourceSpec}
    (h : planResources k cfg false s = (pr, s1)) :
    s1.config = s.config ∧ s1.port_pool = s.port_pool ∧
    s1.container_registry = s.container_registry ∧
    s1.restarting_kernels = s.restarting_kernels ∧
    s1.scratch = s.scratch := by
  rw [planResources, if_neg (by simp)] at h
  repeat' (first | split at h | dsimp only [] at h)
  all_goals (
    rw [Prod.mk.injEq] at h
    obtain ⟨-, hs1⟩ := h
    subst hs1
    exact ⟨rfl, rfl, rfl, rfl, rfl⟩)

theorem create_ok_effect {k : List Char} {cfg : KernelCreateConfig}
    {cid : List Char} {now : Nat} {s s' : AgentState} {res : CreateResult}
    (h : _create_kernel k cfg false (normalEnv cid) now s = (.ok res, s')) :
    ∃ spec exposed sps hps pool',
      exposedPortsOf cfg.lang = Except.ok (exposed, sps) ∧
      dictGet k s.scratch = none ∧
      drawPorts exposed.length s.port_pool = some (hps, pool') ∧
      s'.config = s.config ∧ s'.port_pool = pool' ∧
      s'.restarting_kernels = s.restarting_kernels ∧
      s'.scratch = dictSet k spec s.scratch ∧
      ∃ record,
        s'.container_registry = dictSet k record s.container_registry ∧
        record.host_ports = hps ∧ record.lang = cfg.lang := by
  rw [_create_kernel] at h
  rcases hplan : planResources k cfg false s with ⟨e | spec, s1⟩ <;>
    simp only [hplan] at h
  · simp at h
  obtain ⟨hcfg, hpool, hreg, htr, hscr⟩ := planResources_fresh_frame hplan
  rcases hper : persistScratch k spec false s1 with ⟨e2 | u, s2⟩ <;>
    simp only [hper] at h
  · simp at h
  cases u
  obtain ⟨hknone, hs2⟩ := persistScratch_fresh_ok hper
  have hp2 : s2.port_pool = s.port_pool := by rw [hs2]; exact hpool
  rcases hexp : exposedPortsOf cfg.lang with e3 | ⟨exposed, sps⟩ <;>
    simp only [hexp] at h
  · simp at h
  by_cases hcard : s2.port_pool.card < exposed.length
  · rw [if_pos hcard] at h
    simp at h
  rw [if_neg hcard] at h
  rcases hdraw : drawPorts exposed.length s2.port_pool
      with _ | ⟨hps, pool'⟩ <;> simp only [hdraw] at h
  · simp at h
  dsimp only [normalEnv] at h
  rw [if_neg Bool.false_ne_true, if_neg Bool.false_ne_true] at h
  rw [Prod.mk.injEq, Except.ok.injEq] at h
  obtain ⟨-, hs'⟩ := h
  subst hs'
  subst hs2
  have ha : dictGet k s.scratch = none := by
    rw [hscr] at hknone
    exact hknone
  have hb : drawPorts exposed.length s.port_pool = some (hps, pool') := by
    rw [hp2] at hdraw
    exact hdraw
  have he : dictSet k spec s1.scratch = dictSet k spec s.scratch := by
    rw [hscr]
  exact ⟨spec, exposed, sps, hps, pool', rfl, ha, hb, hcfg, rfl, htr, he,
    _, congrArg (dictSet k _) hreg, rfl, rfl⟩

/-! ## Further dictionary, registry and pool facts (for C2) -/

theorem dictGet_ne_none_of_mem [DecidableEq κ] {kv : κ × α}
    {l : List (κ × α)} (h : kv ∈ l) : dictGet kv.1 l ≠ none := by
  induction l with
  | nil => exact absurd h (List.not_mem_nil kv)
  | cons p rest ih =>
    rw [dictGet]
    by_cases hp : p.1 = kv.1
    · rw [if_pos hp]
      simp
    · rw [if_neg hp]
      rcases List.mem_cons.1 h with he | hm
      · exact absurd (by rw [he]) hp
      · exact ih hm

theorem dictGet_dictSet_ne_none [DecidableEq κ] {j k : κ} {v : α}
    {l : List (κ × α)} (h : dictGet j l ≠ none) :
    dictGet j (dictSet k v l) ≠ none := by
  by_cases hjk : j = k
  · subst hjk
    rw [dictGet_dictSet_self]
    simp
  · rw [dictGet_dictSet_ne hjk]
    exact h

theorem dictGet_dictPop_ne_none [DecidableEq κ] {j k : κ}
    {l : List (κ × α)} (hne : j ≠ k) (h : dictGet j l ≠ none) :
    dictGet j (dictPop k l) ≠ none := by
  rw [dictGet_dictPop_ne hne]
  exact h

theorem regPorts_mem_subset {kv : List Char × KernelRecord}
    {l : List (List Char × KernelRecord)} (h : kv ∈ l) :
    kv.2.host_ports.toFinset ⊆ regPorts l := by
  induction l with
  | nil => exact absurd h (List.not_mem_nil kv)
  | cons p rest ih =>
    rw [regPorts_cons]
    rcases List.mem_cons.1 h with he | hm
    · rw [he]
      exact Finset.subset_union_left
    · exact (ih hm).trans Finset.subset_union_right

theorem inter_empty_of_subsets {A B C D : Finset Nat} (hA : A ⊆ C)
    (hB : B ⊆ D) (h : C ∩ D = ∅) : A ∩ B = ∅ := by
  rw [Finset.eq_empty_iff_forall_not_mem] at h ⊢
  intro x hx
  rw [Finset.mem_inter] at hx
  exact h x (Finset.mem_inter.2 ⟨hA hx.1, hB hx.2⟩)

theorem persistScratch_error {k : List Char} {spec : KernelResourceSpec}
    {s s2 : AgentState} {e : AgentErr}
    (h : persistScratch k spec false s = (.error e, s2)) : s2 = s := by
  rw [persistScratch] at h
  simp only [Bool.false_eq_true, if_false] at h
  split at h
  · rw [Prod.mk.injEq] at h
    exact h.2.symm
  · exact absurd h (by simp)

theorem create_error_effect {k : List Char} {cfg : KernelCreateConfig}
    {cid : List Char} {now : Nat} {s s' : AgentState} {e : AgentErr}
    (h : _create_kernel k cfg false (normalEnv cid) now s = (.error e, s')) :
    s'.config = s.config ∧ s'.port_pool = s.port_pool ∧
    s'.container_registry = s.container_registry ∧
    s'.restarting_kernels = s.restarting_kernels ∧
    (s'.scratch = s.scratch ∨ ∃ spec, dictGet k s.scratch = none ∧
      s'.scratch = dictSet k spec s.scratch) := by
  rw [_create_kernel] at h
  rcases hplan : planResources k cfg false s with ⟨e0 | spec, s1⟩ <;>
    simp only [hplan] at h
  · obtain ⟨hcfg, hpool, hreg, htr, hscr⟩ := planResources_fresh_frame hplan
    rw [Prod.mk.injEq] at h
    obtain ⟨-, hs'⟩ := h
    subst hs'
    exact ⟨hcfg, hpool, hreg, htr, Or.inl hscr⟩
  obtain ⟨hcfg, hpool, hreg, htr, hscr⟩ := planResources_fresh_frame hplan
  rcases hper : persistScratch k spec false s1 with ⟨e2 | u, s2⟩ <;>
    simp only [hper] at h
  · have hs2 := persistScratch_error hper
    rw [Prod.mk.injEq] at h
    obtain ⟨-, hs'⟩ := h
    subst hs'
    rw [hs2]
    exact ⟨hcfg, hpool, hreg, htr, Or.inl hscr⟩
  cases u
  obtain ⟨hknone, hs2⟩ := persistScratch_fresh_ok hper
  rw [hscr] at hknone
  have hfr : s2.config = s.config ∧ s2.port_pool = s.port_pool ∧
      s2.container_registry = s.container_registry ∧
      s2.restarting_kernels = s.restarting_kernels ∧
      s2.scratch = dictSet k spec s.scratch := by
    rw [hs2]
    exact ⟨hcfg, hpool, hreg, htr, by rw [hscr]⟩
  obtain ⟨h2c, h2p, h2r, h2t, h2s⟩ := hfr
  rcases hexp : exposedPortsOf cfg.lang with e3 | ⟨exposed, sps⟩ <;>
    simp only [hexp] at h
  · rw [Prod.mk.injEq] at h
    obtain ⟨-, hs'⟩ := h
    subst hs'
    exact ⟨h2c, h2p, h2r, h2t, Or.inr ⟨spec, hknone, h2s⟩⟩
  by_cases hcard : s2.port_pool.card < exposed.length
  · rw [if_pos hcard] at h
    rw [Prod.mk.injEq] at h
    obtain ⟨-, hs'⟩ := h
    subst hs'
    exact ⟨h2c, h2p, h2r, h2t, Or.inr ⟨spec, hknone, h2s⟩⟩
  rw [if_neg hcard] at h
  rcases hdraw : drawPorts exposed.length s2.port_pool
      with _ | ⟨hps, pool'⟩ <;> simp only [hdraw] at h
  · rw [Prod.mk.injEq] at h
    obtain ⟨-, hs'⟩ := h
    subst hs'
    exact ⟨h2c, h2p, h2r, h2t, Or.inr ⟨spec, hknone, h2s⟩⟩
  dsimp only [normalEnv] at h
  rw [if_neg Bool.false_ne_true, if_neg Bool.false_ne_true] at h
  rw [Prod.mk.injEq] at h
  exact absurd h.1 (by simp)

theorem create_restarting_ok {k : List Char} {cfg : KernelCreateConfig}
    {cid : List Char} {now : Nat} {s : AgentState}
    {spec : KernelResourceSpec} {exposed : List Int} {sps : List ServicePort}
    {hps : List Nat} {pool' : Finset Nat}
    (hscr : dictGet k s.scratch = some spec)
    (hexp : exposedPortsOf cfg.lang = .ok (exposed, sps))
    (hcard : ¬ s.port_pool.card < exposed.length)
    (hdraw : drawPorts exposed.length s.port_pool = some (hps, pool')) :
    ∃ res s4,
      _create_kernel k cfg true (normalEnv cid) now s = (.ok res, s4) ∧
      s4.config = s.config ∧ s4.port_pool = pool' ∧
      s4.restarting_kernels = s.restarting_kernels ∧
      s4.scratch = s.scratch ∧
      ∃ record,
        s4.container_registry = dictSet k record s.container_registry ∧
        record.host_ports = hps ∧ record.lang = cfg.lang := by
  rw [_create_kernel, planResources, if_pos rfl]
  simp only [hscr]
  rw [persistScratch, if_pos rfl]
  simp only [hexp, if_neg hcard, hdraw]
  dsimp only [normalEnv]
  rw [if_neg Bool.false_ne_true, if_neg Bool.false_ne_true]
  exact ⟨_, _, rfl, rfl, rfl, rfl, rfl, _, rfl, rfl, rfl⟩

/-! ## Preservation of the induction invariant (C2) -/

theorem stateInv_create {s : AgentState} {k : List Char}
    {cfg : KernelCreateConfig} {cid : List Char} {now : Nat}
    (hinv : stateInv s) : stateInv (stepOp s (.create k cfg cid now)) := by
  obtain ⟨⟨hun, hdisj, hpw⟩, htr, hnd, hok⟩ := hinv
  rw [stepOp]
  rcases hres : _create_kernel k cfg false (normalEnv cid) now s with ⟨r, s'⟩
  dsimp only []
  rcases r with e | res
  · obtain ⟨hc, hp, hr, ht, hscr⟩ := create_error_effect hres
    refine ⟨⟨?_, ?_, ?_⟩, ?_, ?_, ?_⟩
    · show s'.port_pool ∪ livePorts s' =
        Finset.Icc s'.config.port_lo s'.config.port_hi
      rw [livePorts, hr, hp, hc]
      exact hun
    · show s'.port_pool ∩ livePorts s' = ∅
      rw [livePorts, hr, hp]
      exact hdisj
    · show List.Pairwise _ s'.container_registry
      rw [hr]
      exact hpw
    · rw [ht, htr]
    · rw [hr]
      exact hnd
    · intro kv hkv
      rw [hr] at hkv
      obtain ⟨hnd2, hsc, hex⟩ := hok kv hkv
      refine ⟨hnd2, ?_, hex⟩
      rcases hscr with hsame | ⟨spec, -, hset⟩
      · rw [hsame]
        exact hsc
      · rw [hset]
        exact dictGet_dictSet_ne_none hsc
  · obtain ⟨spec, exposed, sps, hps, pool', hexp, hknone, hdraw, hc, hp,
      ht, hscr, record, hr, hhp, hlang⟩ := create_ok_effect hres
    obtain ⟨hlen, hndps, hsub, hpool'⟩ := drawPorts_some hdraw
    have hkreg : dictGet k s.container_registry = none := by
      cases hg : dictGet k s.container_registry with
      | none => rfl
      | some rec0 =>
        obtain ⟨l1, l2, hsplit, -⟩ := dictGet_some_split hg
        have hkmem : ((k, rec0) : List Char × KernelRecord) ∈
            s.container_registry := by
          rw [hsplit]
          exact List.mem_append_right _ (List.mem_cons_self _ _)
        exact absurd hknone (hok _ hkmem).2.1
    have hreg2 : s'.container_registry =
        s.container_registry ++ [(k, record)] := by
      rw [hr, dictSet_append_of_get_none hkreg]
    have hU : hps.toFinset ∪ pool' = s.port_pool := by
      rw [hpool']
      exact Finset.union_sdiff_of_subset hsub
    have hI : pool' ∩ hps.toFinset = ∅ := by
      rw [hpool']
      ext x
      simp only [Finset.mem_inter, Finset.mem_sdiff, Finset.not_mem_empty,
        iff_false, not_and]
      exact fun hx => hx.2
    have hpool_sub : pool' ⊆ s.port_pool := by
      rw [hpool']
      exact Finset.sdiff_subset
    have hlive2 : livePorts s' = livePorts s ∪ hps.toFinset := by
      rw [livePorts, hreg2, regPorts_append, regPorts_cons]
      dsimp only []
      rw [hhp]
      show regPorts s.container_registry ∪ (hps.toFinset ∪ regPorts []) = _
      rw [livePorts]
      congr 1
      exact Finset.union_empty _
    refine ⟨⟨?_, ?_, ?_⟩, ?_, ?_, ?_⟩
    · show s'.port_pool ∪ livePorts s' =
        Finset.Icc s'.config.port_lo s'.config.port_hi
      rw [hp, hlive2, hc]
      calc pool' ∪ (livePorts s ∪ hps.toFinset)
          = pool' ∪ (hps.toFinset ∪ livePorts s) := by
            rw [Finset.union_comm (livePorts s)]
        _ = (pool' ∪ hps.toFinset) ∪ livePorts s := by
            rw [Finset.union_assoc]
        _ = (hps.toFinset ∪ pool') ∪ livePorts s := by
            rw [Finset.union_comm pool']
        _ = s.port_pool ∪ livePorts s := by rw [hU]
        _ = Finset.Icc s.config.port_lo s.config.port_hi := hun
    · show s'.port_pool ∩ livePorts s' = ∅
      rw [hp, hlive2, Finset.inter_union_distrib_left,
        inter_empty_of_subset hpool_sub hdisj, hI, Finset.union_empty]
    · show List.Pairwise _ s'.container_registry
      rw [hreg2, List.pairwise_append]
      refine ⟨hpw, List.pairwise_singleton _ _, ?_⟩
      intro a ha b hb
      rw [List.mem_singleton] at hb
      subst hb
      show a.2.host_ports.toFinset ∩ record.host_ports.toFinset = ∅
      rw [hhp]
      exact inter_empty_of_subsets (regPorts_mem_subset ha) hsub
        (by rw [Finset.inter_comm]; exact hdisj)
    · rw [ht, htr]
    · rw [hreg2, List.map_append, List.nodup_append]
      refine ⟨hnd, List.nodup_singleton _, ?_⟩
      intro a ha hb
      rw [List.map_singleton, List.mem_singleton] at hb
      subst hb
      exact dictGet_none_not_mem_keys hkreg ha
    · intro kv hkv
      rw [hreg2] at hkv
      rcases List.mem_append.1 hkv with hm | hm
      · obtain ⟨hnd2, hsc, hex⟩ := hok kv hm
        refine ⟨hnd2, ?_, hex⟩
        rw [hscr]
        exact dictGet_dictSet_ne_none hsc
      · rw [List.mem_singleton] at hm
        subst hm
        refine ⟨?_, ?_, ?_⟩
        · show record.host_ports.Nodup
          rw [hhp]
          exact hndps
        · show dictGet k s'.scratch ≠ none
          rw [hscr, dictGet_dictSet_self]
          simp
        · show ∃ e0 s0, exposedPortsOf record.lang = .ok (e0, s0) ∧
            e0.length = record.host_ports.length
          refine ⟨exposed, sps, ?_, ?_⟩
          · rw [hlang]
            exact hexp
          · rw [hhp]
            exact hlen.symm

theorem clean_kernel_none {k : List Char} {s : AgentState}
    (hg : dictGet k s.container_registry = none)
    (htr : s.restarting_kernels = []) :
    clean_kernel k s = {s with scratch := dictPop k s.scratch} := by
  rw [clean_kernel]
  simp only [hg, htr]
  rw [if_neg (by simp [dictContains, dictGet])]

theorem clean_kernel_some {k : List Char} {s : AgentState}
    {info : KernelRecord}
    (hg : dictGet k s.container_registry = some info)
    (htr : s.restarting_kernels = []) :
    clean_kernel k s =
      { config := s.config,
        port_pool := s.port_pool ∪ (info.host_ports.filter
          (fun p => decide (s.config.port_lo ≤ p ∧
            p ≤ s.config.port_hi))).toFinset,
        container_cpu_map :=
          s.container_cpu_map.free info.resource_spec.cpu_set,
        accelerators :=
          freeAccelShares info.resource_spec.accelShares s.accelerators,
        container_registry := dictPop k s.container_registry,
        restarting_kernels := s.restarting_kernels,
        scratch := dictPop k s.scratch } := by
  rw [clean_kernel]
  simp only [hg, htr]
  rw [if_neg (by simp [dictContains, dictGet])]

theorem stateInv_destroy {s : AgentState} {k : List Char}
    (hinv : stateInv s) : stateInv (stepOp s (.destroy k)) := by
  obtain ⟨⟨hun, hdisj, hpw⟩, htr, hnd, hok⟩ := hinv
  rw [stepOp, destroyAndReap]
  cases hg : dictGet k s.container_registry with
  | none =>
    rw [clean_kernel_none hg htr]
    refine ⟨⟨hun, hdisj, hpw⟩, htr, hnd, ?_⟩
    intro kv hkv
    obtain ⟨hnd2, hsc, hex⟩ := hok kv hkv
    refine ⟨hnd2, ?_, hex⟩
    have hne : kv.1 ≠ k := fun he =>
      dictGet_ne_none_of_mem hkv (by rw [he]; exact hg)
    exact dictGet_dictPop_ne_none hne hsc
  | some info =>
    rw [clean_kernel_some hg htr]
    obtain ⟨l1, l2, hsplit, hne1⟩ := dictGet_some_split hg
    have hnd0 := hnd
    rw [hsplit] at hnd0
    have hne2 := (keys_nodup_split hnd0).2
    have hpop : dictPop k s.container_registry = l1 ++ l2 := by
      rw [hsplit, dictPop_split hne1 hne2]
    have hokk := hok (k, info) (by
      rw [hsplit]
      exact List.mem_append_right _ (List.mem_cons_self _ _))
    have hndinfo : info.host_ports.Nodup := hokk.1
    have hsubLive : info.host_ports.toFinset ⊆ livePorts s :=
      regPorts_subset_of_get hg
    have hfilt : info.host_ports.filter
        (fun p => decide (s.config.port_lo ≤ p ∧ p ≤ s.config.port_hi)) =
        info.host_ports := by
      apply List.filter_eq_self.2
      intro p hp
      have hicc : p ∈ Finset.Icc s.config.port_lo s.config.port_hi := by
        rw [← hun]
        exact Finset.mem_union_right _ (hsubLive (List.mem_toFinset.2 hp))
      rw [Finset.mem_Icc] at hicc
      exact decide_eq_true hicc
    have hlive_split : livePorts s =
        regPorts l1 ∪ (info.host_ports.toFinset ∪ regPorts l2) := by
      rw [livePorts, hsplit, regPorts_append, regPorts_cons]
    have hpw0 := hpw
    rw [hsplit, List.pairwise_append] at hpw0
    obtain ⟨hpw1, hpw2c, hpwX⟩ := hpw0
    rw [List.pairwise_cons] at hpw2c
    obtain ⟨hmid2, hpw2⟩ := hpw2c
    have hmid1 : ∀ a ∈ l1,
        a.2.host_ports.toFinset ∩ info.host_ports.toFinset = ∅ :=
      fun a ha => hpwX a ha (k, info) (List.mem_cons_self _ _)
    have hsub12 : (l1 ++ l2).Sublist (l1 ++ (k, info) :: l2) :=
      List.Sublist.append_left (List.sublist_cons_self (k, info) l2) l1
    have hR1live : regPorts l1 ⊆ livePorts s := by
      rw [hlive_split]
      exact Finset.subset_union_left
    have hR2live : regPorts l2 ⊆ livePorts s := by
      rw [hlive_split]
      exact subset_trans Finset.subset_union_right
        (Finset.union_subset_union_right Finset.subset_union_right)
    refine ⟨⟨?_, ?_, ?_⟩, htr, ?_, ?_⟩
    · show s.port_pool ∪ (info.host_ports.filter _).toFinset ∪
        regPorts (dictPop k s.container_registry) = _
      rw [hfilt, hpop, regPorts_append]
      calc s.port_pool ∪ info.host_ports.toFinset ∪
            (regPorts l1 ∪ regPorts l2)
          = s.port_pool ∪ (info.host_ports.toFinset ∪
            (regPorts l1 ∪ regPorts l2)) := by rw [Finset.union_assoc]
        _ = s.port_pool ∪ (regPorts l1 ∪
            (info.host_ports.toFinset ∪ regPorts l2)) := by
            rw [Finset.union_left_comm (info.host_ports.toFinset)]
        _ = s.port_pool ∪ livePorts s := by rw [← hlive_split]
        _ = Finset.Icc s.config.port_lo s.config.port_hi := hun
    · show (s.port_pool ∪ (info.host_ports.filter _).toFinset) ∩
        regPorts (dictPop k s.container_registry) = ∅
      rw [hfilt, hpop, regPorts_append, Finset.union_inter_distrib_right,
        Finset.inter_union_distrib_left, Finset.inter_union_distrib_left]
      have e1 : s.port_pool ∩ regPorts l1 = ∅ :=
        inter_empty_of_subsets (subset_refl s.port_pool) hR1live hdisj
      have e2 : s.port_pool ∩ regPorts l2 = ∅ :=
        inter_empty_of_subsets (subset_refl s.port_pool) hR2live hdisj
      have e3 : info.host_ports.toFinset ∩ regPorts l1 = ∅ :=
        inter_regPorts_empty (fun kv hkv => by
          rw [Finset.inter_comm]
          exact hmid1 kv hkv)
      have e4 : info.host_ports.toFinset ∩ regPorts l2 = ∅ :=
        inter_regPorts_empty (fun kv hkv => hmid2 kv hkv)
      rw [e1, e2, e3, e4, Finset.union_empty, Finset.union_empty]
    · show List.Pairwise _ (dictPop k s.container_registry)
      rw [hpop]
      exact List.Pairwise.sublist hsub12 (hsplit ▸ hpw)
    · show ((dictPop k s.container_registry).map Prod.fst).Nodup
      rw [hpop]
      exact List.Nodup.sublist (List.Sublist.map Prod.fst hsub12) hnd0
    · intro kv hkv
      dsimp only [] at hkv
      rw [hpop] at hkv
      have hkv0 : kv ∈ s.container_registry := by
        rw [hsplit]
        exact (List.Sublist.subset hsub12) hkv
      obtain ⟨hnd2, hsc, hex⟩ := hok kv hkv0
      refine ⟨hnd2, ?_, hex⟩
      have hne : kv.1 ≠ k := by
        rcases List.mem_append.1 hkv with hm | hm
        · exact hne1 kv hm
        · exact hne2 kv hm
      exact dictGet_dictPop_ne_none hne hsc

theorem clean_kernel_tracked {k : List Char} {s : AgentState}
    {info : KernelRecord}
    (hg : dictGet k s.container_registry = some info)
    (htrk : dictContains k s.restarting_kernels = true) :
    clean_kernel k s =
      { s with
        port_pool := s.port_pool ∪ (info.host_ports.filter
          (fun p => decide (s.config.port_lo ≤ p ∧
            p ≤ s.config.port_hi))).toFinset,
        restarting_kernels :=
          trackerSetDestroyEvent k s.restarting_kernels } := by
  rw [clean_kernel]
  simp only [hg]
  rw [if_pos htrk]

theorem restart_kernel_step {k : List Char} {cfg : KernelCreateConfig}
    {env : DockerEnv} {now : Nat} {s : AgentState} {record : KernelRecord}
    {r : Except AgentErr CreateResult} {s4 : AgentState}
    (htr : s.restarting_kernels = [])
    (hg : dictGet k s.container_registry = some record)
    (hcr : _create_kernel k cfg true env now
      { s with
        port_pool := s.port_pool ∪ (record.host_ports.filter
          (fun p => decide (s.config.port_lo ≤ p ∧
            p ≤ s.config.port_hi))).toFinset,
        restarting_kernels := [(k, ⟨false, false⟩)] } = (r, s4)) :
    (restart_kernel k cfg env now true s).1.2 =
      match r with
      | .error _ => s4
      | .ok _ => {s4 with restarting_kernels := dictPop k s4.restarting_kernels} := by
  rw [restart_kernel, htr]
  dsimp only [dictGet, Option.getD, dictSet]
  rw [destroyAndReap]
  have hg1 : dictGet k ({s with restarting_kernels :=
      [(k, (⟨false, false⟩ : TrackerState))]}).container_registry =
      some record := hg
  have htrk1 : dictContains k ({s with restarting_kernels :=
      [(k, (⟨false, false⟩ : TrackerState))]}).restarting_kernels =
      true := by
    simp [dictContains, dictGet]
  rw [clean_kernel_tracked hg1 htrk1]
  dsimp only []
  simp only [trackerSetDestroyEvent, trackerClearDestroyEvent,
    List.map_cons, List.map_nil, eq_self_iff_true, if_true]
  split
  next e x heq =>
    rw [hcr, Prod.mk.injEq] at heq
    obtain ⟨hr, hx⟩ := heq
    subst hr
    subst hx
    rfl
  next res x heq =>
    rw [hcr, Prod.mk.injEq] at heq
    obtain ⟨hr, hx⟩ := heq
    subst hr
    subst hx
    rfl

theorem union_shuffle (A B X Y : Finset Nat) :
    A ∪ (X ∪ (B ∪ Y)) = (A ∪ B) ∪ (X ∪ Y) := by
  rw [Finset.union_left_comm X B Y, ← Finset.union_assoc]

theorem sdiff_inter_eq_empty (A B : Finset Nat) : (A \ B) ∩ B = ∅ := by
  ext x
  simp only [Finset.mem_inter, Finset.mem_sdiff, Finset.not_mem_empty,
    iff_false, not_and]
  exact fun hx => hx.2

theorem stateInv_restart {s : AgentState} {k : List Char}
    {cfg : KernelCreateConfig} {cid : List Char} {now : Nat}
    {record : KernelRecord}
    (hg : dictGet k s.container_registry = some record)
    (hlang : cfg.lang = record.lang)
    (hinv : stateInv s) : stateInv (stepOp s (.restart k cfg cid now)) := by
  obtain ⟨⟨hun, hdisj, hpw⟩, htr, hnd, hok⟩ := hinv
  obtain ⟨l1, l2, hsplit, hne1⟩ := dictGet_some_split hg
  have hnd0 := hnd
  rw [hsplit] at hnd0
  have hne2 := (keys_nodup_split hnd0).2
  have hokk := hok (k, record) (by
    rw [hsplit]
    exact List.mem_append_right _ (List.mem_cons_self _ _))
  obtain ⟨hndhp, hscrk, exposed, sps, hexpr, hlenr⟩ := hokk
  rcases hspec : dictGet k s.scratch with _ | spec
  · exact absurd hspec hscrk
  have hexpc : exposedPortsOf cfg.lang = .ok (exposed, sps) := by
    rw [hlang]
    exact hexpr
  have hsubLive : record.host_ports.toFinset ⊆ livePorts s :=
    regPorts_subset_of_get hg
  have hfilt : record.host_ports.filter
      (fun p => decide (s.config.port_lo ≤ p ∧ p ≤ s.config.port_hi)) =
      record.host_ports := by
    apply List.filter_eq_self.2
    intro p hp
    have hicc : p ∈ Finset.Icc s.config.port_lo s.config.port_hi := by
      rw [← hun]
      exact Finset.mem_union_right _ (hsubLive (List.mem_toFinset.2 hp))
    rw [Finset.mem_Icc] at hicc
    exact decide_eq_true hicc
  have hlenr2 : exposed.length = record.host_ports.length := hlenr
  have hcard : ¬ (s.port_pool ∪ record.host_ports.toFinset).card <
      exposed.length := by
    have h1 : record.host_ports.toFinset.card = record.host_ports.length :=
      List.toFinset_card_of_nodup hndhp
    have h3 := Finset.card_le_card
      (@Finset.subset_union_right Nat _ s.port_pool
        record.host_ports.toFinset)
    omega
  obtain ⟨hps, pool2, hdraw⟩ := drawPorts_of_le (Nat.le_of_not_lt hcard)
  have hcard9 : ¬ (s.port_pool ∪ (record.host_ports.filter
      (fun p => decide (s.config.port_lo ≤ p ∧
        p ≤ s.config.port_hi))).toFinset).card < exposed.length := by
    rw [hfilt]
    exact hcard
  have hdraw9 : drawPorts exposed.length (s.port_pool ∪
      (record.host_ports.filter (fun p => decide (s.config.port_lo ≤ p ∧
        p ≤ s.config.port_hi))).toFinset) = some (hps, pool2) := by
    rw [hfilt]
    exact hdraw
  obtain ⟨res, s4, hcr, h4c0, h4p, h4t0, h4s0, record9, h4r0, hhp9, hlang9⟩ :=
    @create_restarting_ok k cfg cid now
      { s with
        port_pool := s.port_pool ∪ (record.host_ports.filter
          (fun p => decide (s.config.port_lo ≤ p ∧
            p ≤ s.config.port_hi))).toFinset,
        restarting_kernels := [(k, ⟨false, false⟩)] }
      spec exposed sps hps pool2 hspec hexpc hcard9 hdraw9
  have h4c : s4.config = s.config := h4c0
  have h4t : s4.restarting_kernels = [(k, (⟨false, false⟩ : TrackerState))] :=
    h4t0
  have h4s : s4.scratch = s.scratch := h4s0
  have h4r : s4.container_registry =
      dictSet k record9 s.container_registry := h4r0
  have hstep := restart_kernel_step htr hg hcr
  rw [stepOp, hstep]
  dsimp only []
  -- decomposition of the redraw
  obtain ⟨hlen9, hnd9, hsub9, hpool9⟩ := drawPorts_some hdraw
  have hreg9 : s4.container_registry = l1 ++ (k, record9) :: l2 := by
    rw [h4r, hsplit, dictSet_split hne1]
  have hlive_split : livePorts s =
      regPorts l1 ∪ (record.host_ports.toFinset ∪ regPorts l2) := by
    rw [livePorts, hsplit, regPorts_append, regPorts_cons]
  have hpw0 := hpw
  rw [hsplit, List.pairwise_append] at hpw0
  obtain ⟨hpw1, hpw2c, hpwX⟩ := hpw0
  rw [List.pairwise_cons] at hpw2c
  obtain ⟨hmid2, hpw2⟩ := hpw2c
  have hmid1 : ∀ a ∈ l1,
      a.2.host_ports.toFinset ∩ record.host_ports.toFinset = ∅ :=
    fun a ha => hpwX a ha (k, record) (List.mem_cons_self _ _)
  have hR1live : regPorts l1 ⊆ livePorts s := by
    rw [hlive_split]
    exact Finset.subset_union_left
  have hR2live : regPorts l2 ⊆ livePorts s := by
    rw [hlive_split]
    exact subset_trans Finset.subset_union_right
      (Finset.union_subset_union_right Finset.subset_union_right)
  have hpool3_R1 : (s.port_pool ∪ record.host_ports.toFinset) ∩
      regPorts l1 = ∅ := by
    rw [Finset.union_inter_distrib_right,
      inter_empty_of_subsets (subset_refl s.port_pool) hR1live hdisj,
      inter_regPorts_empty (fun kv hkv => by
        rw [Finset.inter_comm]
        exact hmid1 kv hkv),
      Finset.union_empty]
  have hpool3_R2 : (s.port_pool ∪ record.host_ports.toFinset) ∩
      regPorts l2 = ∅ := by
    rw [Finset.union_inter_distrib_right,
      inter_empty_of_subsets (subset_refl s.port_pool) hR2live hdisj,
      inter_regPorts_empty (fun kv hkv => hmid2 kv hkv),
      Finset.union_empty]
  have hpool2_sub : pool2 ⊆ s.port_pool ∪ record.host_ports.toFinset := by
    rw [hpool9]
    exact Finset.sdiff_subset
  have hU9 : hps.toFinset ∪ pool2 =
      s.port_pool ∪ record.host_ports.toFinset := by
    rw [hpool9]
    exact Finset.union_sdiff_of_subset hsub9
  have hI9 : pool2 ∩ hps.toFinset = ∅ := by
    rw [hpool9]
    exact sdiff_inter_eq_empty _ _
  have hlive9 : regPorts (l1 ++ (k, record9) :: l2) =
      regPorts l1 ∪ (hps.toFinset ∪ regPorts l2) := by
    rw [regPorts_append, regPorts_cons]
    dsimp only []
    rw [hhp9]
  refine ⟨⟨?_, ?_, ?_⟩, ?_, ?_, ?_⟩
  · show s4.port_pool ∪ regPorts s4.container_registry =
      Finset.Icc s4.config.port_lo s4.config.port_hi
    rw [h4p, hreg9, hlive9, h4c, union_shuffle,
      Finset.union_comm pool2 hps.toFinset, hU9, ← union_shuffle,
      ← hlive_split, hun]
  · show s4.port_pool ∩ regPorts s4.container_registry = ∅
    rw [h4p, hreg9, hlive9, Finset.inter_union_distrib_left,
      Finset.inter_union_distrib_left,
      inter_empty_of_subset hpool2_sub hpool3_R1, hI9,
      inter_empty_of_subset hpool2_sub hpool3_R2,
      Finset.union_empty, Finset.union_empty]
  · show List.Pairwise _ s4.container_registry
    rw [hreg9, List.pairwise_append, List.pairwise_cons]
    refine ⟨hpw1, ⟨?_, hpw2⟩, ?_⟩
    · intro b hb
      show record9.host_ports.toFinset ∩ b.2.host_ports.toFinset = ∅
      rw [hhp9]
      refine inter_empty_of_subsets hsub9 (subset_refl _) ?_
      rw [Finset.union_inter_distrib_right,
        inter_empty_of_subsets (subset_refl s.port_pool)
          (subset_trans (regPorts_mem_subset hb) hR2live) hdisj,
        hmid2 b hb, Finset.union_empty]
    · intro a ha b hb
      rcases List.mem_cons.1 hb with he | hm
      · subst he
        show a.2.host_ports.toFinset ∩ record9.host_ports.toFinset = ∅
        rw [hhp9]
        refine inter_empty_of_subsets (subset_refl _) hsub9 ?_
        rw [Finset.inter_union_distrib_left,
          inter_empty_of_subsets (subset_refl _)
            (subset_refl s.port_pool) (by
              rw [Finset.inter_comm]
              exact inter_empty_of_subsets (subset_refl s.port_pool)
                (subset_trans (regPorts_mem_subset ha) hR1live) hdisj),
          hmid1 a ha, Finset.union_empty]
      · exact hpwX a ha b (List.mem_cons_of_mem _ hm)
  · show dictPop k s4.restarting_kernels = []
    rw [h4t]
    simp [dictPop]
  · show (s4.container_registry.map Prod.fst).Nodup
    rw [hreg9, List.map_append, List.map_cons]
    rw [List.map_append, List.map_cons] at hnd0
    exact hnd0
  · intro kv hkv
    dsimp only [] at hkv
    rw [hreg9] at hkv
    rcases List.mem_append.1 hkv with hm | hm
    · obtain ⟨hnd2, hsc, hex⟩ := hok kv (by
        rw [hsplit]
        exact List.mem_append_left _ hm)
      refine ⟨hnd2, ?_, hex⟩
      show dictGet kv.1 s4.scratch ≠ none
      rw [h4s]
      exact hsc
    · rcases List.mem_cons.1 hm with he | hm2
      · subst he
        refine ⟨?_, ?_, ?_⟩
        · show record9.host_ports.Nodup
          rw [hhp9]
          exact hnd9
        · show dictGet k s4.scratch ≠ none
          rw [h4s, hspec]
          simp
        · show ∃ e0 s0, exposedPortsOf record9.lang = .ok (e0, s0) ∧
            e0.length = record9.host_ports.length
          refine ⟨exposed, sps, ?_, ?_⟩
          · rw [hlang9]
            exact hexpc
          · rw [hhp9]
            exact hlen9.symm
      · obtain ⟨hnd2, hsc, hex⟩ := hok kv (by
          rw [hsplit]
          exact List.mem_append_right _ (List.mem_cons_of_mem _ hm2))
        refine ⟨hnd2, ?_, hex⟩
        show dictGet kv.1 s4.scratch ≠ none
        rw [h4s]
        exact hsc

theorem stateInv_step {s : AgentState} {op : AgentOp}
    (hv : validOp s op) (hinv : stateInv s) : stateInv (stepOp s op) := by
  cases op with
  | create k cfg cid now => exact stateInv_create hinv
  | destroy k => exact stateInv_destroy hinv
  | restart k cfg cid now =>
    obtain ⟨record, hg, hlang⟩ := hv
    exact stateInv_restart hg hlang hinv

theorem stateInv_runOps {s : AgentState} {ops : List AgentOp}
    (hv : validTrace s ops) (hinv : stateInv s) :
    stateInv (runOps s ops) := by
  induction ops generalizing s with
  | nil => exact hinv
  | cons op ops ih =>
    rw [runOps]
    exact ih hv.2 (stateInv_step hv.1 hinv)

theorem stateInv_initial (cfg : AgentConfig) (topo : List (Nat × Nat))
    (accels : List (List Char × AcceleratorAllocMap)) :
    stateInv (AgentState.initial cfg topo accels) := by
  refine ⟨⟨?_, ?_, ?_⟩, rfl, ?_, ?_⟩
  · show Finset.Icc cfg.port_lo cfg.port_hi ∪ regPorts [] = _
    rw [show regPorts [] = ∅ from rfl, Finset.union_empty]
    rfl
  · show Finset.Icc cfg.port_lo cfg.port_hi ∩ regPorts [] = ∅
    rw [show regPorts [] = ∅ from rfl, Finset.inter_empty]
  · exact List.Pairwise.nil
  · exact List.nodup_nil
  · intro kv hkv
    exact absurd hkv (List.not_mem_nil kv)

/-- C2 counterexample: on a fresh two-port agent, create a kernel from the
plain image and then restart it re-supplying a DIFFERENT image whose
service-port label makes it expose three container ports.  The re-create
inside `restart_kernel` fails the port-availability check after
`clean_kernel` has already returned the old host ports to the pool, so at
quiescence the registry still holds the old record while its two host
ports are also free in the pool: the pool and the live `host_ports` are
not disjoint, falsifying the claim for this interleaving. -/
theorem port_conservation_counterexample :
    ¬ portInv (runOps twoPortState
      [.create "k1".data sampleCfg "c1".data 1,
       .restart "k1".data sampleCfgSvc "c2".data 2]) := by
  intro h
  exact absurd h.2.1 (by decide)

/-- C2 (amended): for every interleaving of create, destroy and restart
operations in which each restart targets a live kernel and re-supplies the
image configuration it is registered with (as the control plane does), at
every quiescent state the free port pool and the `host_ports` lists of
live kernels are pairwise disjoint and their union is the configured
inclusive range `[port_lo, port_hi]`. -/
theorem port_conservation (cfgA : AgentConfig) (topo : List (Nat × Nat))
    (accels : List (List Char × AcceleratorAllocMap)) (ops : List AgentOp)
    (hv : validTrace (AgentState.initial cfgA topo accels) ops) :
    portInv (runOps (AgentState.initial cfgA topo accels) ops) :=
  (stateInv_runOps hv (stateInv_initial cfgA topo accels)).1

theorem port_conservation_witness :
    portInv (runOps (AgentState.initial ⟨30000, 30001, 600⟩
        [(0, 0), (1, 0)] [])
      [.create "k1".data sampleCfg "c1".data 1, .destroy "k1".data]) :=
  port_conservation ⟨30000, 30001, 600⟩ [(0, 0), (1, 0)] []
    [.create "k1".data sampleCfg "c1".data 1, .destroy "k1".data]
    ⟨trivial, trivial, trivial⟩

end BackendAgent
